import Mathlib

/-!
# Kobler bid adapter (`modules/koblerBidAdapter.js`)

A shallow embedding of the adapter's functions over a small model of JavaScript
values, followed by the properties established about them.

Modelling conventions

* A JavaScript value is a tree `JSVal`: the primitives, arrays, plain objects
  (association lists, first binding of a key wins) and callables, which are
  handles interpreted by the host (`Host.call`).
* Numbers are integers (`num`) or `nan`; fractional numbers are not represented.
* Evaluation that can throw lives in `Except JSError`; a `TypeError` is raised by
  reading a property of `undefined` or `null` and by calling an array method on a
  value that is not an array.
* Ambient state of the browser and of the framework (configuration, user agent,
  page location, behaviour of callables) is the explicit parameter `Host`.
* `JSON.stringify` is modelled down to the text it produces: it calls `toJSON` methods
  through the host, leaves out what has no text, and throws a `RangeError` beyond the
  nesting depth `Host.maxDepth`. The payload is that text; the object it is the text of is
  `requestObject`, and properties of the payload's content are stated about that object.
-/

namespace Kobler

/-! ## JavaScript values -/

/-- JavaScript values handled by the adapter. -/
inductive JSVal where
  | undefined
  | null
  | boolean (b : Bool)
  | num (n : Int)
  | nan
  | str (s : String)
  | arr (xs : List JSVal)
  | obj (fields : List (String × JSVal))
  | func (id : Nat)

namespace JSVal

mutual
/-- Structural equality test on values. -/
def beq : JSVal → JSVal → Bool
  | undefined, undefined => true
  | null, null => true
  | boolean a, boolean b => a == b
  | num a, num b => a == b
  | nan, nan => true
  | str a, str b => a == b
  | arr a, arr b => beqList a b
  | obj a, obj b => beqFields a b
  | func a, func b => a == b
  | _, _ => false
/-- Structural equality test on lists of values. -/
def beqList : List JSVal → List JSVal → Bool
  | [], [] => true
  | x :: xs, y :: ys => beq x y && beqList xs ys
  | _, _ => false
/-- Structural equality test on field lists. -/
def beqFields : List (String × JSVal) → List (String × JSVal) → Bool
  | [], [] => true
  | (k, x) :: xs, (l, y) :: ys => k == l && beq x y && beqFields xs ys
  | _, _ => false
end

end JSVal

open JSVal

/-- Exceptions: a `TypeError` raised by the language, a `RangeError` raised when the
serialiser nests deeper than the engine's stack allows, or a value thrown by a host
callable. -/
inductive JSError where
  | typeError
  | rangeError
  | thrown (v : JSVal)

/-- Computations that may throw. -/
abbrev JS (α : Type) := Except JSError α

/-- JavaScript truthiness (`ToBoolean`). -/
def truthy : JSVal → Bool
  | undefined => false
  | null => false
  | boolean b => b
  | num n => n != 0
  | nan => false
  | str s => s != ""
  | arr _ => true
  | obj _ => true
  | func _ => true

/-- Logical negation `!v`. -/
def jsNot (v : JSVal) : JSVal := boolean (!truthy v)

/-- Short-circuit disjunction `a || b`: the right operand is evaluated only when the
left one is falsy. -/
def jsOr (a b : JS JSVal) : JS JSVal := do
  let x ← a
  if truthy x then pure x else b

/-- Short-circuit conjunction `a && b`: the right operand is evaluated only when the
left one is truthy. -/
def jsAnd (a b : JS JSVal) : JS JSVal := do
  let x ← a
  if truthy x then b else pure x

/-- First binding of a key in a field list. -/
def lookupField (name : String) : List (String × JSVal) → JSVal
  | [] => undefined
  | (k, v) :: rest => if k = name then v else lookupField name rest

/-- Property read `v.name` for the identifier-named properties the adapter reads.
Reading from `undefined` or `null` throws; a plain object yields the bound value or
`undefined`; every other value has none of these properties (they are not members of
the built-in prototypes) and yields `undefined`. -/
def getProp (v : JSVal) (name : String) : JS JSVal :=
  match v with
  | undefined => .error .typeError
  | null => .error .typeError
  | obj fs => .ok (lookupField name fs)
  | _ => .ok undefined

/-- Element of a list at a position, `undefined` beyond the end. -/
def nthOr : List JSVal → Nat → JSVal
  | [], _ => undefined
  | x :: _, 0 => x
  | _ :: xs, n + 1 => nthOr xs n

/-- Indexed read `v[i]` with a literal index. -/
def getIndex (v : JSVal) (i : Nat) : JS JSVal :=
  match v with
  | undefined => .error .typeError
  | null => .error .typeError
  | arr xs => .ok (nthOr xs i)
  | obj fs => .ok (lookupField (toString i) fs)
  | str s => .ok (match s.data.drop i with
      | [] => undefined
      | c :: _ => str (String.mk [c]))
  | _ => .ok undefined

/-- Receiver of an array method (`forEach`, `map`): the elements of an array; any other
value has no such method and the call throws. Response bodies are parsed JSON and hold no
callables, so an object that defines a method of that name itself does not occur. -/
def asArray : JSVal → JS (List JSVal)
  | arr xs => .ok xs
  | _ => .error .typeError

/-- Sequential `map` with a callback that may throw: the first exception aborts the walk. -/
def mapJS {α β : Type} (f : α → JS β) : List α → JS (List β)
  | [] => pure []
  | x :: xs => do
    let y ← f x
    let ys ← mapJS f xs
    pure (y :: ys)

/-- Sequential `forEach` whose callback updates an accumulator (the array it pushes to). -/
def forEachJS {α σ : Type} (f : σ → α → JS σ) : List α → σ → JS σ
  | [], acc => pure acc
  | x :: xs, acc => do
    let next ← f acc x
    forEachJS f xs next

/-- The result of `typeof v`. -/
def typeOf : JSVal → String
  | undefined => "undefined"
  | null => "object"
  | boolean _ => "boolean"
  | num _ => "number"
  | nan => "number"
  | str _ => "string"
  | arr _ => "object"
  | obj _ => "object"
  | func _ => "function"

/-- Strict comparison `v === 0` with the number literal zero. -/
def strictEqZero : JSVal → Bool
  | num n => n == 0
  | _ => false

/-- A value exists when it is neither `undefined` nor `null`. -/
def present (v : JSVal) : Bool :=
  match v with
  | undefined => false
  | null => false
  | _ => true

/-- Total indexed read: like `getIndex`, with `undefined` where `getIndex` throws. -/
def elemAt (v : JSVal) (i : Nat) : JSVal :=
  match getIndex v i with
  | .ok x => x
  | .error _ => undefined

/-- Total property read: like `getProp`, with `undefined` where `getProp` throws. -/
def field (v : JSVal) (name : String) : JSVal :=
  match getProp v name with
  | .ok x => x
  | .error _ => undefined

/-! ## Strings: `toString`, `toLowerCase`, `parseInt`, regular expressions -/

mutual
/-- The abstract operation `ToString`. Numbers print in plain decimal, which is what
JavaScript does for integers below `10^21` in magnitude. -/
def toStr : JSVal → String
  | undefined => "undefined"
  | null => "null"
  | boolean b => if b then "true" else "false"
  | num n => toString n
  | nan => "NaN"
  | str s => s
  | arr xs => joinStr xs
  | obj _ => "[object Object]"
  | func _ => "function () \x7b [native code] \x7d"
/-- The method `Array.prototype.join` with a comma: `undefined` and `null` elements
print as the empty string. -/
def joinStr : List JSVal → String
  | [] => ""
  | x :: rest =>
    (match x with
      | undefined => ""
      | null => ""
      | y => toStr y)
    ++ (match rest with
      | [] => ""
      | z :: zs => "," ++ joinStr (z :: zs))
end

/-- White space and line terminators skipped by `parseInt` (`StrWhiteSpaceChar`). -/
def isStrWhiteSpace (c : Char) : Bool :=
  let n := c.toNat
  n == 0x9 || n == 0xA || n == 0xB || n == 0xC || n == 0xD || n == 0x20 || n == 0xA0
    || n == 0x1680 || (0x2000 ≤ n && n ≤ 0x200A) || n == 0x2028 || n == 0x2029
    || n == 0x202F || n == 0x205F || n == 0x3000 || n == 0xFEFF

/-- Value of a character as a digit of the given radix (10 or 16). -/
def digitVal (radix : Nat) (c : Char) : Option Nat :=
  let n := c.toNat
  if 48 ≤ n && n ≤ 57 then some (n - 48)
  else if radix == 16 && 97 ≤ n && n ≤ 102 then some (n - 87)
  else if radix == 16 && 65 ≤ n && n ≤ 70 then some (n - 55)
  else none

/-- Reads the longest run of digits at the head of the text: the number of digits read
and their value. -/
def readDigits (radix : Nat) : List Char → Nat → Nat → Nat × Nat
  | [], count, acc => (count, acc)
  | c :: cs, count, acc =>
    match digitVal radix c with
    | some d => readDigits radix cs (count + 1) (acc * radix + d)
    | none => (count, acc)

/-- The global `parseInt(v)` without a radix argument: `ToString`, skip leading white
space, an optional sign, an optional `0x` or `0X` head selecting radix 16, then the
longest run of digits; `NaN` when there is no digit. -/
def parseInt (v : JSVal) : JSVal :=
  let s := (toStr v).data.dropWhile isStrWhiteSpace
  let negative := match s with
    | '-' :: _ => true
    | _ => false
  let s := match s with
    | '-' :: t => t
    | '+' :: t => t
    | _ => s
  let radix := match s with
    | '0' :: 'x' :: _ => 16
    | '0' :: 'X' :: _ => 16
    | _ => 10
  let s := match s with
    | '0' :: 'x' :: t => t
    | '0' :: 'X' :: t => t
    | _ => s
  match readDigits radix s 0 0 with
  | (0, _) => nan
  | (_, value) => if negative then num (-(value : Int)) else num (value : Int)

/-- One character under `String.prototype.toLowerCase`, as far as the adapter's patterns
can tell: ASCII capitals fold to small letters; the Kelvin sign and the dotted capital I
are the two characters outside ASCII whose lower case contains an ASCII letter; every
other character outside ASCII stays outside ASCII and is kept as it is. -/
def lowerChar (c : Char) : List Char :=
  if c.toNat == 0x212A then ['k']
  else if c.toNat == 0x130 then ['i', Char.ofNat 0x307]
  else [c.toLower]

/-- The method `String.prototype.toLowerCase`. -/
def toLowerCase (s : String) : String :=
  String.mk (s.data.flatMap lowerChar)

/-- Line terminators, which `.` does not match. -/
def isLineTerminator (c : Char) : Bool :=
  let n := c.toNat
  n == 0xA || n == 0xD || n == 0x2028 || n == 0x2029

/-- The character class `\d`. -/
def isDigit (c : Char) : Bool :=
  48 ≤ c.toNat && c.toNat ≤ 57

/-- The character class `.`. -/
def isAny (c : Char) : Bool :=
  !isLineTerminator c

/-- Regular expressions, as much of the syntax as the adapter's two patterns use.
Repetition is applied to character classes only. -/
inductive Re where
  | lit (cs : List Char)
  | cls (p : Char → Bool)
  | seq (a b : Re)
  | alt (a b : Re)
  | opt (a : Re)
  | star (p : Char → Bool)
  | plus (p : Char → Bool)
  | notAhead (a : Re)

/-- Character comparison under the flag `i`. -/
def ciEq (a b : Char) : Bool :=
  a.toLower == b.toLower

/-- Matches a literal at the head of the text, then continues with `k`. -/
def matchLit (k : List Char → Bool) : List Char → List Char → Bool
  | [], s => k s
  | _ :: _, [] => false
  | c :: cs, x :: xs => ciEq x c && matchLit k cs xs

/-- Matches any number of characters of a class, then continues with `k`. -/
def matchStar (p : Char → Bool) (k : List Char → Bool) : List Char → Bool
  | [] => k []
  | x :: xs => (p x && matchStar p k xs) || k (x :: xs)

/-- Backtracking matcher in continuation-passing style: `run r s k` holds when `r`
matches a head of `s` such that `k` accepts the rest. -/
def Re.run : Re → List Char → (List Char → Bool) → Bool
  | .lit cs, s, k => matchLit k cs s
  | .cls p, s, k =>
    match s with
    | [] => false
    | x :: xs => p x && k xs
  | .seq a b, s, k => Re.run a s (fun t => Re.run b t k)
  | .alt a b, s, k => Re.run a s k || Re.run b s k
  | .opt a, s, k => Re.run a s k || k s
  | .star p, s, k => matchStar p k s
  | .plus p, s, k =>
    match s with
    | [] => false
    | x :: xs => p x && matchStar p k xs
  | .notAhead a, s, k => !(Re.run a s (fun _ => true)) && k s

/-- Whether the pattern matches starting exactly at the head of the text. -/
def Re.matchesAt (r : Re) (s : List Char) : Bool :=
  Re.run r s (fun _ => true)

/-- The method `RegExp.prototype.test`: is there a match starting anywhere in the text. -/
def Re.test (r : Re) : List Char → Bool
  | [] => Re.matchesAt r []
  | x :: xs => Re.matchesAt r (x :: xs) || Re.test r xs

/-- Alternation of several patterns. -/
def Re.alts : Re → List Re → Re
  | r, [] => r
  | r, x :: xs => .alt r (Re.alts x xs)

/-- A literal word. -/
def word (s : String) : Re := .lit s.data

/-- The tablet pattern
`/(tablet|ipad|playbook|silk|android 3.0|xoom|sch-i800|kindle)|(android(?!.*mobi))/i`. -/
def tabletPattern : Re :=
  .alt
    (Re.alts (word "tablet") [word "ipad", word "playbook", word "silk",
      .seq (word "android 3") (.seq (.cls isAny) (word "0")),
      word "xoom", word "sch-i800", word "kindle"])
    (.seq (word "android") (.notAhead (.seq (.star isAny) (word "mobi"))))

/-- The phone pattern
`/(android|bb\d+|meego).+mobile|avantgo|bada\/|blackberry|blazer|compal|elaine|fennec|`
`hiptop|iemobile|ip(hone|od)|iris|kindle|lge |maemo|midp|mmp|mobile.+firefox|netfront|`
`opera m(ob|in)i|palm( os)?|phone|p(ixi|re)\/|plucker|pocket|psp|series([46])0|symbian|`
`treo|up\.(browser|link)|vodafone|wap|windows ce|xda|xiino/i` (one line in the source). -/
def phonePattern : Re :=
  Re.alts
    (.seq (.alt (word "android") (.alt (.seq (word "bb") (.plus isDigit)) (word "meego")))
      (.seq (.plus isAny) (word "mobile")))
    [word "avantgo", word "bada/", word "blackberry", word "blazer", word "compal",
     word "elaine", word "fennec", word "hiptop", word "iemobile",
     .seq (word "ip") (.alt (word "hone") (word "od")),
     word "iris", word "kindle", word "lge ", word "maemo", word "midp", word "mmp",
     .seq (word "mobile") (.seq (.plus isAny) (word "firefox")),
     word "netfront",
     .seq (word "opera m") (.seq (.alt (word "ob") (word "in")) (word "i")),
     .seq (word "palm") (.opt (word " os")),
     word "phone",
     .seq (word "p") (.seq (.alt (word "ixi") (word "re")) (word "/")),
     word "plucker", word "pocket", word "psp",
     .seq (word "series") (.seq (.cls (fun c => c == '4' || c == '6')) (word "0")),
     word "symbian", word "treo",
     .seq (word "up.") (.alt (word "browser") (word "link")),
     word "vodafone", word "wap", word "windows ce", word "xda", word "xiino"]

/-! ## The host -/

/-- What the adapter reads from its surroundings: the framework configuration
(`config.getConfig`), the browser (`navigator.userAgent`, `window.location.href`), the
behaviour of callables, given the callable, the receiver and the arguments, and the
nesting depth up to which the engine's `JSON.stringify` can descend before its stack
overflows. -/
structure Host where
  getConfig : String → JSVal
  userAgent : String
  locationHref : String
  call : Nat → JSVal → List JSVal → JS JSVal
  maxDepth : Nat

/-- Calls a value as a method of a receiver; calling a value that is not callable throws. -/
def callValue (host : Host) (f thisArg : JSVal) (args : List JSVal) : JS JSVal :=
  match f with
  | func id => host.call id thisArg args
  | _ => .error .typeError

/-! ## `JSON.stringify` -/

/-- A hexadecimal digit in lower case. -/
def hexDigit (n : Nat) : Char :=
  if n < 10 then Char.ofNat (48 + n) else Char.ofNat (87 + n)

/-- One character inside a JSON string literal (`QuoteJSONString`): the quotation mark and
the reverse solidus are escaped, control characters take their short escape or the
four-digit form. -/
def quoteChar (c : Char) : List Char :=
  let n := c.toNat
  if n == 34 then [Char.ofNat 92, Char.ofNat 34]
  else if n == 92 then [Char.ofNat 92, Char.ofNat 92]
  else if n == 8 then [Char.ofNat 92, 'b']
  else if n == 9 then [Char.ofNat 92, 't']
  else if n == 10 then [Char.ofNat 92, 'n']
  else if n == 12 then [Char.ofNat 92, 'f']
  else if n == 13 then [Char.ofNat 92, 'r']
  else if n < 32 then [Char.ofNat 92, 'u', '0', '0', hexDigit (n / 16), hexDigit (n % 16)]
  else [c]

/-- The abstract operation `QuoteJSONString`. -/
def quoteJSONString (s : String) : String :=
  String.mk (Char.ofNat 34 :: (s.data.flatMap quoteChar ++ [Char.ofNat 34]))

/-- The number a key stands for when it is an array index: a canonical decimal numeral
below `2^32 - 1`. -/
def arrayIndexOf (k : String) : Option Nat :=
  match readDigits 10 k.data 0 0 with
  | (count, value) =>
    if count == k.data.length && decide (0 < count) && toString value == k
        && decide (value < 4294967295) then
      some value
    else none

/-- The distinct keys of a field list, in the order of their first binding. -/
def distinctKeys : List (String × JSVal) → List String → List String
  | [], _ => []
  | (k, _) :: rest, seen =>
    if seen.contains k then distinctKeys rest seen else k :: distinctKeys rest (k :: seen)

/-- Inserts a number into an ascending list. -/
def insertAscending (n : Nat) : List Nat → List Nat
  | [] => [n]
  | m :: ms => if n ≤ m then n :: m :: ms else m :: insertAscending n ms

/-- Sorts numbers in ascending order. -/
def sortAscending : List Nat → List Nat
  | [] => []
  | n :: ns => insertAscending n (sortAscending ns)

/-- The own enumerable property keys of an object in enumeration order: array indices in
ascending order, then the other keys in the order of creation. -/
def ownKeys (fs : List (String × JSVal)) : List String :=
  let keys := distinctKeys fs []
  (sortAscending (keys.filterMap arrayIndexOf)).map toString
    ++ keys.filter (fun k => (arrayIndexOf k).isNone)

/-- A list with the positions of its elements. -/
def indexed : Nat → List JSVal → List (Nat × JSVal)
  | _, [] => []
  | i, x :: xs => (i, x) :: indexed (i + 1) xs

/-- The elements of `SerializeJSONArray`: each element is serialised under its index, and
an element without a text counts as `null`. -/
def serializeElements (ser : String → JSVal → JS (Option String)) (xs : List JSVal) :
    JS (List String) :=
  mapJS (fun p => do
    let r ← ser (toString p.1) p.2
    pure (r.getD "null")) (indexed 0 xs)

/-- The members of `SerializeJSONObject`: each property is serialised under its key, and a
property without a text is left out. -/
def serializeMembers (ser : String → JSVal → JS (Option String))
    (fs : List (String × JSVal)) : JS (List String) := do
  let parts ← mapJS (fun k => do
    let r ← ser k (lookupField k fs)
    pure (r.map (fun text => quoteJSONString k ++ ":" ++ text))) (ownKeys fs)
  pure (parts.filterMap id)

/-- The abstract operation `SerializeJSONProperty` without replacer or indentation, applied
to the value found under `key`. An object that carries a callable `toJSON` is replaced by
the result of calling it with the key; `undefined` and callables have no text. The first
argument bounds the nesting the engine can descend: beyond it the call throws a
`RangeError`. -/
def serializeJSONProperty (host : Host) : Nat → String → JSVal → JS (Option String)
  | 0, _, _ => .error .rangeError
  | fuel + 1, key, v => do
    let toJSON := match v with
      | obj fs => lookupField "toJSON" fs
      | _ => undefined
    let value ← (if typeOf toJSON = "function" then callValue host toJSON v [str key]
      else pure v : JS JSVal)
    match value with
    | undefined => pure none
    | null => pure (some "null")
    | boolean b => pure (some (if b then "true" else "false"))
    | num n => pure (some (toString n))
    | nan => pure (some "null")
    | str s => pure (some (quoteJSONString s))
    | arr xs => do
      let parts ← serializeElements (serializeJSONProperty host fuel) xs
      pure (some ("[" ++ ",".intercalate parts ++ "]"))
    | obj fs => do
      let parts ← serializeMembers (serializeJSONProperty host fuel) fs
      pure (some ("\x7b" ++ ",".intercalate parts ++ "\x7d"))
    | func _ => pure none

/-- The function `JSON.stringify(value)`: the JSON text of the value, or `undefined` when
the value has none. -/
def JSONstringify (host : Host) (value : JSVal) : JS JSVal := do
  let text ← serializeJSONProperty host host.maxDepth "" value
  match text with
  | some t => pure (str t)
  | none => pure undefined

/-- Modelled from the spec: `utils.deepAccess` of the framework (`src/utils.js`), which
reads a dotted path step by step and yields `undefined` as soon as a step is absent. -/
def deepAccess (v : JSVal) (path : List String) : JSVal :=
  path.foldl (fun o k => if truthy o then field o k else undefined) v

/-- Modelled from the spec: `utils.isArray` of the framework (`src/utils.js`). -/
def isArray : JSVal → Bool
  | arr _ => true
  | _ => false

/-- The property `length` of an array. -/
def arrayLength : JSVal → Nat
  | arr xs => xs.length
  | _ => 0

/-- Modelled from the spec: the constant `BANNER` of the framework (`src/mediaTypes.js`). -/
def BANNER : String := "banner"

/-! ## The adapter -/

def BIDDER_CODE : String := "kobler"

def BIDDER_ENDPOINT : String := "https://bid.essrtb.com/bid/prebid_rtb_call"

def DEFAULT_CURRENCY : String := "USD"

def DEFAULT_TIMEOUT : Int := 1000

def TIME_TO_LIVE_IN_SECONDS : Int := 10 * 60

/-- The validator: `!(!bid || !bid.bidId || !bid.params || !bid.params.placementId)`. -/
def isBidRequestValid (bid : JSVal) : JS JSVal := do
  let missing ←
    jsOr (jsOr (jsOr (pure (jsNot bid))
      (do let bidId ← getProp bid "bidId"; pure (jsNot bidId)))
      (do let params ← getProp bid "params"; pure (jsNot params)))
      (do let params ← getProp bid "params"
          let placementId ← getProp params "placementId"
          pure (jsNot placementId))
  pure (jsNot missing)

/-- The object pushed for one bid `b` of the response body `res`. -/
def bidResult (res b : JSVal) : JS JSVal := do
  let requestId ← getProp b "impid"
  let cpm ← getProp b "price"
  let currency ← getProp res "cur"
  let width ← getProp b "w"
  let height ← getProp b "h"
  let creativeId ← getProp b "crid"
  let dealId ← getProp b "dealid"
  let ad ← getProp b "adm"
  let advertiserDomains ← getProp b "adomain"
  pure (obj [("requestId", requestId), ("cpm", cpm), ("currency", currency),
    ("width", width), ("height", height), ("creativeId", creativeId), ("dealId", dealId),
    ("netRevenue", boolean true), ("ttl", num TIME_TO_LIVE_IN_SECONDS), ("ad", ad),
    ("meta", obj [("advertiserDomains", advertiserDomains)])])

/-- The inner callback of the interpreter, `b => { bids.push({...}) }`. -/
def pushBid (res : JSVal) (bids : List JSVal) (b : JSVal) : JS (List JSVal) := do
  let r ← bidResult res b
  pure (bids ++ [r])

/-- The outer callback of the interpreter, `sb => { sb.bid.forEach(...) }`. -/
def eachSeat (res : JSVal) (bids : List JSVal) (sb : JSVal) : JS (List JSVal) := do
  let bid ← getProp sb "bid"
  let entries ← asArray bid
  forEachJS (pushBid res) entries bids

/-- The response interpreter. The result is the array `bids`. -/
def interpretResponse (serverResponse : JSVal) : JS (List JSVal) := do
  let res ← getProp serverResponse "body"
  if truthy res then
    let seatbid ← getProp res "seatbid"
    let seats ← asArray seatbid
    forEachJS (eachSeat res) seats []
  else
    pure []

def getCurrency (host : Host) : JSVal :=
  if truthy (host.getConfig "currency.adServerCurrency") then
    host.getConfig "currency.adServerCurrency"
  else str DEFAULT_CURRENCY

def getDevice (host : Host) : JSVal :=
  let ua := host.userAgent
  if Re.test tabletPattern (toLowerCase ua).data then num 5
  else if Re.test phonePattern (toLowerCase ua).data then num 4
  else num 2

def getGeo (validBidRequest : JSVal) : JS JSVal := do
  let cond ← jsAnd (getProp validBidRequest "params")
    (do let params ← getProp validBidRequest "params"; getProp params "zip")
  if truthy cond then
    let params ← getProp validBidRequest "params"
    let zip ← getProp params "zip"
    pure (obj [("zip", zip)])
  else
    pure (obj [])

def getTest (host : Host) (validBidRequest : JSVal) : JS JSVal := do
  let cond ← jsOr
    (jsAnd (getProp validBidRequest "params")
      (do let params ← getProp validBidRequest "params"; getProp params "test"))
    (pure (host.getConfig "debug"))
  if truthy cond then pure (num 1) else pure (num 0)

def getSizes (validBidRequest : JSVal) : JS JSVal := do
  let sizes ← jsOr (pure (deepAccess validBidRequest ["mediaTypes", "banner", "sizes"]))
    (getProp validBidRequest "sizes")
  if isArray sizes && decide (arrayLength sizes > 0) then
    pure sizes
  else
    let params ← getProp validBidRequest "params"
    let w ← getProp params "width"
    let width := if truthy w then w else num 0
    let h ← getProp params "height"
    let height := if truthy h then h else num 0
    pure (arr [arr [width, height]])

/-- The callback of `buildFormatArray`, `size => ({w: size[0], h: size[1]})`. -/
def formatOf (size : JSVal) : JS JSVal := do
  let w ← getIndex size 0
  let h ← getIndex size 1
  pure (obj [("w", w), ("h", h)])

def buildFormatArray (sizes : JSVal) : JS JSVal := do
  let xs ← asArray sizes
  let format ← mapJS formatOf xs
  pure (arr format)

def getPosition (validBidRequest : JSVal) : JS JSVal :=
  jsOr (jsOr
    (do let params ← getProp validBidRequest "params"
        let position ← getProp params "position"
        pure (parseInt position))
    (do let params ← getProp validBidRequest "params"
        let pos ← getProp params "pos"
        pure (parseInt pos)))
    (pure (num 0))

def getFloorInfo (host : Host) (validBidRequest mainSize : JSVal) : JS JSVal := do
  let getFloor ← getProp validBidRequest "getFloor"
  if typeOf getFloor = "function" then
    let first ← getIndex mainSize 0
    let sizeParam := if strictEqZero first && strictEqZero mainSize then str "*" else mainSize
    callValue host getFloor validBidRequest
      [obj [("currency", getCurrency host), ("mediaType", str BANNER), ("size", sizeParam)]]
  else
    let params ← getProp validBidRequest "params"
    let floor ← jsOr (jsOr (getProp params "bidfloor") (getProp params "floorprice"))
      (pure (num 0))
    pure (obj [("currency", getCurrency host), ("floor", floor)])

def buildPmpObject (validBidRequest : JSVal) : JS JSVal := do
  let params ← getProp validBidRequest "params"
  let dealId ← getProp params "dealId"
  if truthy dealId then
    pure (obj [("deals", arr [obj [("id", dealId)]])])
  else
    pure (obj [])

def buildOpenRtbImpObject (host : Host) (validBidRequest : JSVal) : JS JSVal := do
  let sizes ← getSizes validBidRequest
  let mainSize ← getIndex sizes 0
  let floorInfo ← getFloorInfo host validBidRequest mainSize
  let id ← getProp validBidRequest "bidId"
  let format ← buildFormatArray sizes
  let w ← getIndex mainSize 0
  let h ← getIndex mainSize 1
  let pos ← getPosition validBidRequest
  let params ← getProp validBidRequest "params"
  let tagid ← getProp params "placementId"
  let bidfloor ← getProp floorInfo "floor"
  let bidfloorcur ← getProp floorInfo "currency"
  let pmp ← buildPmpObject validBidRequest
  pure (obj [("id", id),
    ("banner", obj [("format", format), ("w", w), ("h", h), ("pos", pos)]),
    ("tagid", tagid), ("bidfloor", bidfloor), ("bidfloorcur", bidfloorcur), ("pmp", pmp)])

/-- The object `request` of `buildOpenRtbBidRequestPayload` (source lines 55 to 75):
everything the function does before it serialises. -/
def requestObject (host : Host) (validBidRequests bidderRequest : JSVal) :
    JS JSVal := do
  let requests ← asArray validBidRequests
  let imps ← mapJS (fun br => buildOpenRtbImpObject host br) requests
  let timeout ← jsOr (jsOr (getProp bidderRequest "timeout")
    (pure (host.getConfig "bidderTimeout"))) (pure (num DEFAULT_TIMEOUT))
  let hasReferer ← jsAnd (getProp bidderRequest "refererInfo")
    (do let refererInfo ← getProp bidderRequest "refererInfo"; getProp refererInfo "referer")
  let pageUrl ← (if truthy hasReferer then
      (do let refererInfo ← getProp bidderRequest "refererInfo"; getProp refererInfo "referer")
    else pure (str host.locationHref) : JS JSVal)
  let id ← getProp bidderRequest "auctionId"
  let first ← getIndex validBidRequests 0
  let geo ← getGeo first
  let firstAgain ← getIndex validBidRequests 0
  let test ← getTest host firstAgain
  pure (obj [("id", id), ("at", num 1), ("tmax", timeout), ("cur", arr [getCurrency host]),
    ("imp", arr imps),
    ("device", obj [("devicetype", getDevice host), ("geo", geo)]),
    ("site", obj [("page", pageUrl)]),
    ("test", test)])

/-- The outbound payload: the JSON text of the object `request`. -/
def buildOpenRtbBidRequestPayload (host : Host) (validBidRequests bidderRequest : JSVal) :
    JS JSVal := do
  let request ← requestObject host validBidRequests bidderRequest
  JSONstringify host request

def buildRequests (host : Host) (validBidRequests bidderRequest : JSVal) : JS JSVal := do
  let data ← buildOpenRtbBidRequestPayload host validBidRequests bidderRequest
  pure (obj [("method", str "POST"), ("url", str BIDDER_ENDPOINT), ("data", data),
    ("options", obj [("contentType", str "application/json")])])

/-! ## Specification vocabulary -/

/-- Validity as the specification words it: the request exists, its `bidId` is present,
its `params` object exists and `params.placementId` is present. -/
def specValid (bid : JSVal) : Bool :=
  present bid && truthy (field bid "bidId") && present (field bid "params")
    && truthy (field (field bid "params") "placementId")

/-- The bid entries of a seat: the elements of its `bid` list. -/
def seatBids (sb : JSVal) : List JSVal :=
  match field sb "bid" with
  | arr xs => xs
  | _ => []

/-- The relation the specification states between a response body, one of its bids `b`
and the result `r` emitted for it. -/
def resultFor (body b r : JSVal) : Prop :=
  field r "requestId" = field b "impid" ∧ field r "cpm" = field b "price"
    ∧ field r "currency" = field body "cur" ∧ field r "width" = field b "w"
    ∧ field r "height" = field b "h" ∧ field r "creativeId" = field b "crid"
    ∧ field r "dealId" = field b "dealid" ∧ field r "ad" = field b "adm"
    ∧ field (field r "meta") "advertiserDomains" = field b "adomain"
    ∧ field r "ttl" = num 600 ∧ field r "netRevenue" = boolean true

/-- The banner sizes a request declares under `mediaTypes.banner.sizes`. -/
def bannerSizes (br : JSVal) : JSVal :=
  deepAccess br ["mediaTypes", "banner", "sizes"]

/-- The size list a request declares: its banner sizes, or its legacy `sizes` field when
no banner sizes are declared. -/
def declaredSizes (br : JSVal) : JSVal :=
  if present (bannerSizes br) then bannerSizes br else field br "sizes"

/-- The format entry `{w: size[0], h: size[1]}` of a size. -/
def formatEntry (size : JSVal) : JSVal :=
  obj [("w", elemAt size 0), ("h", elemAt size 1)]

/-- The floor query of a request, when it has one, answers every call on this host with a
floor descriptor and does not throw. -/
def FloorQueryAnswers (host : Host) (br : JSVal) : Prop :=
  ∀ f : Nat, field br "getFloor" = func f →
    ∀ args : List JSVal, ∃ fi : JSVal, host.call f br args = .ok fi ∧ present fi = true

/-- The synthetic size pair: `params.width` and `params.height`, each replaced by `0` when
it is not given. -/
def syntheticSize (br : JSVal) : JSVal :=
  arr [if truthy (field (field br "params") "width") then field (field br "params") "width"
       else num 0,
       if truthy (field (field br "params") "height") then field (field br "params") "height"
       else num 0]

/-- The object emitted for a bid `b` of the body `res`, written with total reads. -/
def bidResultOf (res b : JSVal) : JSVal :=
  obj [("requestId", field b "impid"), ("cpm", field b "price"), ("currency", field res "cur"),
    ("width", field b "w"), ("height", field b "h"), ("creativeId", field b "crid"),
    ("dealId", field b "dealid"), ("netRevenue", boolean true),
    ("ttl", num TIME_TO_LIVE_IN_SECONDS), ("ad", field b "adm"),
    ("meta", obj [("advertiserDomains", field b "adomain")])]

/-- The currency the specification resolves: the configured ad-server currency, else the
fixed default `USD`. -/
def resolvedCurrency (host : Host) : JSVal :=
  if truthy (host.getConfig "currency.adServerCurrency") then
    host.getConfig "currency.adServerCurrency"
  else str "USD"

/-- The floor of a request without a floor query: `params.bidfloor` when present, else
`params.floorprice` when present, else `0`. -/
def fallbackFloor (br : JSVal) : JSVal :=
  if truthy (field (field br "params") "bidfloor") then field (field br "params") "bidfloor"
  else if truthy (field (field br "params") "floorprice") then
    field (field br "params") "floorprice"
  else num 0

/-- A value parses to an integer when `parseInt` yields a number. -/
def parsesToInteger (v : JSVal) : Bool :=
  match parseInt v with
  | num _ => true
  | _ => false

/-- The position as the specification words it: the integer parsed from `params.position`
when that parses to an integer, otherwise the one parsed from `params.pos` when that
parses to an integer, otherwise `0`. -/
def specPosition (br : JSVal) : JSVal :=
  if parsesToInteger (field (field br "params") "position") then
    parseInt (field (field br "params") "position")
  else if parsesToInteger (field (field br "params") "pos") then
    parseInt (field (field br "params") "pos")
  else num 0

/-- The position the adapter sends: the integer parsed from `params.position` when that is
a non-zero integer, otherwise the one parsed from `params.pos` when that is a non-zero
integer, otherwise `0`. -/
def effectivePosition (br : JSVal) : JSVal :=
  if truthy (parseInt (field (field br "params") "position")) then
    parseInt (field (field br "params") "position")
  else if truthy (parseInt (field (field br "params") "pos")) then
    parseInt (field (field br "params") "pos")
  else num 0

/-- The deal targeting as the specification words it: a single deal carrying
`params.dealId` when that is present, the empty object otherwise. -/
def specPmp (br : JSVal) : JSVal :=
  if truthy (field (field br "params") "dealId") then
    obj [("deals", arr [obj [("id", field (field br "params") "dealId")]])]
  else obj []

/-- The test flag as the specification words it: `1` when the request asks for test mode
or the global debug configuration is enabled, else `0`. -/
def specTestFlag (host : Host) (br : JSVal) : JSVal :=
  if truthy (field (field br "params") "test") || truthy (host.getConfig "debug") then num 1
  else num 0

/-- The same letter in either case. -/
def sameLetter (c t : Char) : Bool :=
  c == t.toLower || c == t.toUpper

/-- The text starts with the word, each letter in either case. -/
def startsAnyCase : List Char → List Char → Bool
  | [], _ => true
  | _ :: _, [] => false
  | t :: ts, c :: cs => sameLetter c t && startsAnyCase ts cs

/-- The text contains the word, each letter in either case. -/
def containsAnyCase (w : List Char) : List Char → Bool
  | [] => startsAnyCase w []
  | c :: cs => startsAnyCase w (c :: cs) || containsAnyCase w cs

/-- A width/height pair. -/
def isPair : JSVal → Bool
  | arr [_, _] => true
  | _ => false

/-- A declared size value, if any, is a list of width/height pairs. -/
def pairsIfAny : JSVal → Bool
  | undefined => true
  | null => true
  | arr xs => xs.all isPair
  | _ => false

mutual
/-- Plain data: a value that holds no callable anywhere, so that serialising it calls
nothing. -/
def plainData : JSVal → Bool
  | func _ => false
  | arr xs => plainList xs
  | obj fs => plainFields fs
  | _ => true
/-- Plain data, for the elements of an array. -/
def plainList : List JSVal → Bool
  | [] => true
  | x :: xs => plainData x && plainList xs
/-- Plain data, for the fields of an object. -/
def plainFields : List (String × JSVal) → Bool
  | [] => true
  | (_, v) :: fs => plainData v && plainFields fs
end

mutual
/-- How deep arrays and objects nest inside a value. -/
def depth : JSVal → Nat
  | arr xs => depthList xs + 1
  | obj fs => depthFields fs + 1
  | _ => 0
/-- The deepest element of an array. -/
def depthList : List JSVal → Nat
  | [] => 0
  | x :: xs => max (depth x) (depthList xs)
/-- The deepest field of an object. -/
def depthFields : List (String × JSVal) → Nat
  | [] => 0
  | (_, v) :: fs => max (depth v) (depthFields fs)
end

/-! ## Example inputs -/

/-- A response with two seats of one bid each. -/
def twoSeatResponse : JSVal :=
  obj [("body", obj [("cur", str "USD"), ("seatbid", arr [
    obj [("bid", arr [obj [("impid", str "bid-1"), ("price", num 7), ("w", num 300),
      ("h", num 250), ("crid", str "c1"), ("dealid", str "d1"), ("adm", str "<div>1</div>"),
      ("adomain", arr [str "a.example"])]])],
    obj [("bid", arr [obj [("impid", str "bid-2"), ("price", num 3), ("w", num 728),
      ("h", num 90), ("crid", str "c2"), ("adm", str "<div>2</div>")]])]])])]

/-- The seats of `twoSeatResponse`. -/
def twoSeats : List JSVal :=
  match field (field twoSeatResponse "body") "seatbid" with
  | arr xs => xs
  | _ => []

/-- A response without a body. -/
def emptyResponse : JSVal :=
  obj [("headers", obj []), ("body", str "")]

/-- A response whose second seat lacks its `bid` list. -/
def brokenSeatResponse : JSVal :=
  obj [("body", obj [("cur", str "USD"), ("seatbid", arr [
    obj [("bid", arr [obj [("impid", str "bid-1"), ("price", num 7)]])],
    obj [("seat", str "s2")]])])]

/-- A host with no configuration and a desktop browser, whose callables answer with a
floor descriptor. -/
def plainHost : Host where
  getConfig := fun _ => undefined
  userAgent := "Mozilla/5.0 (X11; Linux x86_64)"
  locationHref := "https://publisher.example/page"
  call := fun _ _ _ => .ok (obj [("currency", str "USD"), ("floor", num 5)])
  maxDepth := 1000

/-- A host whose callables answer with the list of arguments they were given. -/
def echoHost : Host where
  getConfig := fun _ => undefined
  userAgent := "Mozilla/5.0 (X11; Linux x86_64)"
  locationHref := "https://publisher.example/page"
  call := fun _ _ args => .ok (arr args)
  maxDepth := 1000

/-- A valid request declaring two banner sizes. -/
def sizedRequest : JSVal :=
  obj [("bidId", str "bid-1"),
    ("params", obj [("placementId", str "pl-1")]),
    ("mediaTypes", obj [("banner", obj [("sizes",
      arr [arr [num 300, num 250], arr [num 320, num 100]])])])]

/-- The size list of `sizedRequest`. -/
def sizedList : List JSVal :=
  [arr [num 300, num 250], arr [num 320, num 100]]

/-- A valid request without any size, giving only a width. -/
def unsizedRequest : JSVal :=
  obj [("bidId", str "bid-2"),
    ("params", obj [("placementId", str "pl-2"), ("width", num 400)])]

/-- A valid request with an empty banner size list and a legacy size list. -/
def emptyBannerRequest : JSVal :=
  obj [("bidId", str "bid-3"),
    ("params", obj [("placementId", str "pl-3")]),
    ("mediaTypes", obj [("banner", obj [("sizes", arr [])])]),
    ("sizes", arr [arr [num 300, num 250]])]

/-- A valid request with legacy sizes only. -/
def legacyRequest : JSVal :=
  obj [("bidId", str "bid-4"),
    ("params", obj [("placementId", str "pl-4")]),
    ("sizes", arr [arr [num 300, num 250]])]

/-- A valid request without sizes that exposes a floor query. -/
def floorRequest : JSVal :=
  obj [("bidId", str "bid-5"),
    ("params", obj [("placementId", str "pl-5")]),
    ("getFloor", func 0)]

/-- An auction context. -/
def sampleContext : JSVal :=
  obj [("auctionId", str "auction-1"), ("timeout", num 700)]

/-- The descriptor built for two of the example requests. -/
def sampleDescriptor : JSVal :=
  match buildRequests plainHost (arr [sizedRequest, unsizedRequest]) sampleContext with
  | .ok d => d
  | .error _ => undefined

/-- A host whose configuration sets the ad-server currency and the debug flag. -/
def configuredHost : Host where
  getConfig := fun k =>
    if k = "currency.adServerCurrency" then str "NOK"
    else if k = "debug" then boolean true
    else undefined
  userAgent := "Mozilla/5.0 (iPad; CPU iPhone OS 12_0 like Mac OS X)"
  locationHref := "https://publisher.example/page"
  call := fun _ _ _ => .ok (obj [("currency", str "NOK"), ("floor", num 5)])
  maxDepth := 1000

/-- A valid request without a floor query that gives a floor price only. -/
def floorPriceRequest : JSVal :=
  obj [("bidId", str "bid-6"),
    ("params", obj [("placementId", str "pl-6"), ("floorprice", num 4)])]

/-- A valid request whose `position` parses to zero and whose `pos` parses to three. -/
def zeroPositionRequest : JSVal :=
  obj [("bidId", str "bid-7"),
    ("params", obj [("placementId", str "pl-7"), ("position", str "0"), ("pos", str "3")])]

/-- A valid request with a position and a deal. -/
def dealRequest : JSVal :=
  obj [("bidId", str "bid-8"),
    ("params", obj [("placementId", str "pl-8"), ("position", str "2"),
      ("dealId", str "deal-1"), ("zip", str "0150"), ("test", boolean true)])]

/-- The impression built for `zeroPositionRequest`. -/
def zeroPositionImpression : JSVal :=
  match buildOpenRtbImpObject plainHost zeroPositionRequest with
  | .ok imp => imp
  | .error _ => undefined

/-- The object `request` built for `sizedRequest` alone. -/
def singlePayload : JSVal :=
  match requestObject plainHost (arr [sizedRequest]) sampleContext with
  | .ok p => p
  | .error _ => undefined

/-- The object `request` built for `sizedRequest` followed by `dealRequest`, which
carries a zip code and asks for test mode. -/
def pairPayload : JSVal :=
  match requestObject plainHost (arr [sizedRequest, dealRequest])
    sampleContext with
  | .ok p => p
  | .error _ => undefined

/-- A host whose browser is a tablet that also names `iPhone` in its user agent. -/
def tabletHost : Host where
  getConfig := fun _ => undefined
  userAgent := "Mozilla/5.0 (iPad; CPU iPhone OS 12_0 like Mac OS X)"
  locationHref := "https://publisher.example/page"
  call := fun _ _ _ => .ok (obj [("currency", str "USD"), ("floor", num 5)])
  maxDepth := 1000

/-- A host whose browser is a phone. -/
def phoneHost : Host where
  getConfig := fun _ => undefined
  userAgent := "Mozilla/5.0 (iPhone; CPU iPhone OS 13_3 like Mac OS X)"
  locationHref := "https://publisher.example/page"
  call := fun _ _ _ => .ok (obj [("currency", str "USD"), ("floor", num 5)])
  maxDepth := 1000

/-- A host whose callables throw. -/
def throwingHost : Host where
  getConfig := fun _ => undefined
  userAgent := "Mozilla/5.0 (X11; Linux x86_64)"
  locationHref := "https://publisher.example/page"
  call := fun _ _ _ => .error (.thrown (str "boom"))
  maxDepth := 1000

/-- A valid request whose zip code is an object with a `toJSON` method. -/
def toJSONRequest : JSVal :=
  obj [("bidId", str "bid-9"),
    ("params", obj [("placementId", str "pl-9"), ("zip", obj [("toJSON", func 1)])])]

/-- The descriptor built for three of the example requests. -/
def completeDescriptor : JSVal :=
  match buildRequests plainHost (arr [sizedRequest, floorRequest, dealRequest])
    sampleContext with
  | .ok d => d
  | .error _ => undefined

/-! ## Decidable equality of values -/

namespace JSVal

mutual
theorem eq_of_beq : ∀ a b : JSVal, beq a b = true → a = b
  | undefined, b, h => by cases b <;> simp_all [beq]
  | null, b, h => by cases b <;> simp_all [beq]
  | boolean a, b, h => by cases b <;> simp_all [beq]
  | num a, b, h => by cases b <;> simp_all [beq]
  | nan, b, h => by cases b <;> simp_all [beq]
  | str a, b, h => by cases b <;> simp_all [beq]
  | func a, b, h => by cases b <;> simp_all [beq]
  | arr a, b, h => by
      cases b <;> simp [beq] at h
      rw [eq_of_beqList _ _ h]
  | obj a, b, h => by
      cases b <;> simp [beq] at h
      rw [eq_of_beqFields _ _ h]
theorem eq_of_beqList : ∀ a b : List JSVal, beqList a b = true → a = b
  | [], b, h => by cases b <;> simp_all [beqList]
  | x :: xs, b, h => by
      cases b with
      | nil => simp [beqList] at h
      | cons y ys =>
        simp [beqList] at h
        rw [eq_of_beq _ _ h.1, eq_of_beqList _ _ h.2]
theorem eq_of_beqFields : ∀ a b : List (String × JSVal), beqFields a b = true → a = b
  | [], b, h => by cases b <;> simp_all [beqFields]
  | (k, x) :: xs, b, h => by
      cases b with
      | nil => simp [beqFields] at h
      | cons y ys =>
        obtain ⟨l, y⟩ := y
        simp [beqFields] at h
        rw [h.1.1, eq_of_beq _ _ h.1.2, eq_of_beqFields _ _ h.2]
end

mutual
theorem beq_self : ∀ a : JSVal, beq a a = true
  | undefined => by simp [beq]
  | null => by simp [beq]
  | boolean a => by simp [beq]
  | num a => by simp [beq]
  | nan => by simp [beq]
  | str a => by simp [beq]
  | func a => by simp [beq]
  | arr a => by simp [beq, beqList_self a]
  | obj a => by simp [beq, beqFields_self a]
theorem beqList_self : ∀ a : List JSVal, beqList a a = true
  | [] => by simp [beqList]
  | x :: xs => by simp [beqList, beq_self x, beqList_self xs]
theorem beqFields_self : ∀ a : List (String × JSVal), beqFields a a = true
  | [] => by simp [beqFields]
  | (k, x) :: xs => by simp [beqFields, beq_self x, beqFields_self xs]
end

theorem beq_iff (a b : JSVal) : beq a b = true ↔ a = b :=
  ⟨eq_of_beq a b, fun h => h ▸ beq_self a⟩

instance : DecidableEq JSVal := fun a b => decidable_of_iff _ (beq_iff a b)

end JSVal

deriving instance DecidableEq for JSError

instance {α : Type} [DecidableEq α] : DecidableEq (JS α)
  | .ok a, .ok b => if h : a = b then isTrue (by rw [h]) else isFalse (by intro e; cases e; exact h rfl)
  | .error a, .error b => if h : a = b then isTrue (by rw [h]) else isFalse (by intro e; cases e; exact h rfl)
  | .ok _, .error _ => isFalse (by intro e; cases e)
  | .error _, .ok _ => isFalse (by intro e; cases e)

/-! ## Basic lemmas -/

@[simp] theorem truthy_undefined : truthy undefined = false := rfl
@[simp] theorem truthy_null : truthy null = false := rfl
@[simp] theorem truthy_nan : truthy nan = false := rfl
@[simp] theorem truthy_boolean (b : Bool) : truthy (boolean b) = b := rfl
@[simp] theorem truthy_num (n : Int) : truthy (num n) = (n != 0) := rfl
@[simp] theorem truthy_str (s : String) : truthy (str s) = (s != "") := rfl
@[simp] theorem truthy_arr (xs : List JSVal) : truthy (arr xs) = true := rfl
@[simp] theorem truthy_obj (fs : List (String × JSVal)) : truthy (obj fs) = true := rfl
@[simp] theorem truthy_func (id : Nat) : truthy (func id) = true := rfl

@[simp] theorem getProp_undefined (k : String) : getProp undefined k = .error .typeError := rfl
@[simp] theorem getProp_null (k : String) : getProp null k = .error .typeError := rfl
@[simp] theorem getProp_obj (fs : List (String × JSVal)) (k : String) :
    getProp (obj fs) k = .ok (lookupField k fs) := rfl
@[simp] theorem getProp_boolean (b : Bool) (k : String) : getProp (boolean b) k = .ok undefined := rfl
@[simp] theorem getProp_num (n : Int) (k : String) : getProp (num n) k = .ok undefined := rfl
@[simp] theorem getProp_nan (k : String) : getProp nan k = .ok undefined := rfl
@[simp] theorem getProp_str (s k : String) : getProp (str s) k = .ok undefined := rfl
@[simp] theorem getProp_arr (xs : List JSVal) (k : String) : getProp (arr xs) k = .ok undefined := rfl
@[simp] theorem getProp_func (id : Nat) (k : String) : getProp (func id) k = .ok undefined := rfl

@[simp] theorem jsOr_ok (x : JSVal) (b : JS JSVal) :
    jsOr (.ok x) b = if truthy x then .ok x else b := rfl

@[simp] theorem jsAnd_ok (x : JSVal) (b : JS JSVal) :
    jsAnd (.ok x) b = if truthy x then b else .ok x := rfl

@[simp] theorem bind_ok {α β : Type} (x : α) (f : α → JS β) : (Except.ok x >>= f) = f x := rfl

@[simp] theorem bind_error {α β : Type} (e : JSError) (f : α → JS β) :
    ((Except.error e : JS α) >>= f) = Except.error e := rfl

@[simp] theorem pure_eq_ok {α : Type} (x : α) : (pure x : JS α) = Except.ok x := rfl

@[simp] theorem truthy_jsNot (v : JSVal) : truthy (jsNot v) = !truthy v := rfl

theorem getProp_of_present (v : JSVal) (k : String) (h : present v = true) :
    getProp v k = .ok (field v k) := by
  cases v <;> first
    | rfl
    | simp [present] at h

/-- The validator never throws: its answer is the conjunction of the four truthiness tests. -/
theorem isBidRequestValid_eq (bid : JSVal) :
    isBidRequestValid bid = .ok (boolean (truthy bid && truthy (field bid "bidId")
      && truthy (field bid "params") && truthy (field (field bid "params") "placementId"))) := by
  have key : ∀ a p : JSVal,
      (do let missing ← jsOr (jsOr (jsOr (pure (jsNot bid)) (pure (jsNot a))) (pure (jsNot p)))
            (do let placementId ← getProp p "placementId"; pure (jsNot placementId))
          pure (jsNot missing) : JS JSVal)
      = .ok (boolean (truthy bid && truthy a && truthy p && truthy (field p "placementId"))) := by
    intro a p
    cases hb : truthy bid <;> cases ha : truthy a <;> cases p <;>
      simp [hb, ha, field, jsNot] <;> split_ifs <;> simp_all
  by_cases hp : present bid = true
  · have h := key (field bid "bidId") (field bid "params")
    simpa [isBidRequestValid, getProp_of_present bid _ hp] using h
  · cases bid <;> first
      | rfl
      | simp [present] at hp

/-- C1: on every candidate bid request, absent ones included, the validator returns
normally, and its answer is `true` exactly when the request exists, `bidId` is truthy,
`params` exists and `params.placementId` is truthy; otherwise the answer is `false`. -/
theorem isBidRequestValid_spec (bid : JSVal) :
    isBidRequestValid bid = .ok (boolean (specValid bid)) := by
  rw [isBidRequestValid_eq]
  have h1 : ∀ v : JSVal, truthy (field v "bidId") = true → present v = true ∧ truthy v = true := by
    intro v; cases v <;> simp [field, present]
  have h2 : ∀ v : JSVal, truthy (field v "placementId") = true →
      present v = true ∧ truthy v = true := by
    intro v; cases v <;> simp [field, present]
  congr 2
  unfold specValid
  cases ha : truthy (field bid "bidId")
  · simp
  · cases hb : truthy (field (field bid "params") "placementId")
    · simp
    · simp [h1 bid ha, h2 _ hb]


/-! ## The request builder: impressions -/

theorem bind_eq_ok {α β : Type} {x : JS α} {f : α → JS β} {b : β} :
    (x >>= f) = .ok b ↔ ∃ a, x = .ok a ∧ f a = .ok b := by
  cases x with
  | error e => simp
  | ok a => simp

theorem field_of_getProp {v x : JSVal} {k : String} (h : getProp v k = .ok x) :
    field v k = x := by
  simp [field, h]

theorem mapJS_length {α β : Type} (f : α → JS β) :
    ∀ (xs : List α) (ys : List β), mapJS f xs = .ok ys → ys.length = xs.length
  | [], ys, h => by
    simp [mapJS] at h
    subst h; rfl
  | x :: xs, ys, h => by
    simp only [mapJS, bind_eq_ok, pure_eq_ok] at h
    obtain ⟨y, _, zs, hzs, hys⟩ := h
    cases hys
    simp [mapJS_length f xs zs hzs]

theorem mapJS_nth (f : JSVal → JS JSVal) :
    ∀ (xs ys : List JSVal), mapJS f xs = .ok ys →
      ∀ i, i < xs.length → f (nthOr xs i) = .ok (nthOr ys i)
  | [], _, _, i, hi => by simp at hi
  | x :: xs, ys, h, i, hi => by
    simp only [mapJS, bind_eq_ok, pure_eq_ok] at h
    obtain ⟨y, hy, zs, hzs, hys⟩ := h
    cases hys
    cases i with
    | zero => simpa [nthOr] using hy
    | succ j =>
      have hj : j < xs.length := by simpa using hi
      simpa [nthOr] using mapJS_nth f xs zs hzs j hj

/-- An impression that was built carries the `bidId` of its request as `id`. -/
theorem buildOpenRtbImpObject_id {host : Host} {br imp : JSVal}
    (h : buildOpenRtbImpObject host br = .ok imp) : field imp "id" = field br "bidId" := by
  simp only [buildOpenRtbImpObject, bind_eq_ok, pure_eq_ok] at h
  obtain ⟨sizes, -, mainSize, -, floorInfo, -, id, hid, format, -, w, -, hh, -, pos, -,
    params, -, tagid, -, bidfloor, -, bidfloorcur, -, pmp, -, himp⟩ := h
  cases himp
  rw [field_of_getProp hid]
  rfl

/-- The payload is the JSON text of the object `request`. -/
theorem payload_of_requestObject {host : Host} {reqs ctx payload : JSVal}
    (h : buildOpenRtbBidRequestPayload host reqs ctx = .ok payload) :
    ∃ request, requestObject host reqs ctx = .ok request
      ∧ JSONstringify host request = .ok payload := by
  simpa only [buildOpenRtbBidRequestPayload, bind_eq_ok] using h

/-- The payload of a descriptor that was built is the JSON text of the object `request`. -/
theorem data_of_buildRequests {host : Host} {reqs ctx d : JSVal}
    (h : buildRequests host reqs ctx = .ok d) :
    ∃ request, requestObject host reqs ctx = .ok request
      ∧ JSONstringify host request = .ok (field d "data") := by
  simp only [buildRequests, bind_eq_ok, pure_eq_ok] at h
  obtain ⟨data, hdata, hd⟩ := h
  cases hd
  exact payload_of_requestObject hdata

/-- C2: whenever `buildRequests` completes on a sequence of bid requests, the payload is
the JSON text of an object `request` that holds one impression per request, in the same
order, and the `id` of the i-th impression is the `bidId` of the i-th request. -/
theorem buildRequests_imp_ids (host : Host) (reqs : List JSVal) (ctx d : JSVal)
    (h : buildRequests host (arr reqs) ctx = .ok d) :
    ∃ (request : JSVal) (imps : List JSVal),
      requestObject host (arr reqs) ctx = .ok request
      ∧ JSONstringify host request = .ok (field d "data")
      ∧ field request "imp" = arr imps
      ∧ imps.length = reqs.length
      ∧ ∀ i, i < reqs.length → field (nthOr imps i) "id" = field (nthOr reqs i) "bidId" := by
  obtain ⟨request, hrequest, htext⟩ := data_of_buildRequests h
  have hobj := hrequest
  simp only [requestObject, bind_eq_ok, pure_eq_ok, asArray] at hobj
  obtain ⟨requests, hreq, imps, himps, rest⟩ := hobj
  cases hreq
  obtain ⟨timeout, -, hasReferer, -, pageUrl, -, id, -, first, -, geo, -, again, -, test, -,
    hdata⟩ := rest
  cases hdata
  refine ⟨_, imps, hrequest, htext, rfl, mapJS_length _ _ _ himps, ?_⟩
  intro i hi
  exact buildOpenRtbImpObject_id (mapJS_nth _ _ _ himps i hi)

set_option maxRecDepth 4000 in
theorem buildRequests_imp_ids_witness :
    buildRequests plainHost (arr [sizedRequest, unsizedRequest]) sampleContext
        = .ok sampleDescriptor
      ∧ ∃ (request : JSVal) (imps : List JSVal),
        requestObject plainHost (arr [sizedRequest, unsizedRequest]) sampleContext = .ok request
        ∧ JSONstringify plainHost request = .ok (field sampleDescriptor "data")
        ∧ field request "imp" = arr imps
        ∧ imps.length = [sizedRequest, unsizedRequest].length
        ∧ ∀ i, i < [sizedRequest, unsizedRequest].length →
          field (nthOr imps i) "id" = field (nthOr [sizedRequest, unsizedRequest] i) "bidId" :=
  ⟨by decide, buildRequests_imp_ids plainHost _ sampleContext sampleDescriptor (by decide)⟩

/-! ## The response interpreter -/

theorem bidResult_of_present {res b : JSVal} (hres : present res = true)
    (hb : present b = true) : bidResult res b = .ok (bidResultOf res b) := by
  simp [bidResult, bidResultOf, getProp_of_present _ _ hres, getProp_of_present _ _ hb]

theorem forEachJS_pushBid {res : JSVal} (hres : present res = true) :
    ∀ (entries acc : List JSVal), (∀ b ∈ entries, present b = true) →
      forEachJS (pushBid res) entries acc = .ok (acc ++ entries.map (bidResultOf res))
  | [], acc, _ => by simp [forEachJS]
  | b :: rest, acc, h => by
    have hb : present b = true := h b (by simp)
    have hrest : ∀ x ∈ rest, present x = true := fun x hx => h x (by simp [hx])
    simp [forEachJS, pushBid, bidResult_of_present hres hb,
      forEachJS_pushBid hres rest _ hrest]

theorem seatBids_of_isArray {sb : JSVal} (h : isArray (field sb "bid") = true) :
    getProp sb "bid" = .ok (arr (seatBids sb)) := by
  have hp : present sb = true := by
    cases sb <;> simp_all [field, isArray, present]
  rw [getProp_of_present _ _ hp]
  unfold seatBids
  cases hf : field sb "bid" <;> simp_all [isArray]

theorem forEachJS_eachSeat {res : JSVal} (hres : present res = true) :
    ∀ (seats acc : List JSVal), (∀ sb ∈ seats, isArray (field sb "bid") = true) →
      (∀ sb ∈ seats, ∀ b ∈ seatBids sb, present b = true) →
      forEachJS (eachSeat res) seats acc
        = .ok (acc ++ seats.flatMap (fun sb => (seatBids sb).map (bidResultOf res)))
  | [], acc, _, _ => by simp [forEachJS]
  | sb :: rest, acc, h1, h2 => by
    have hsb := seatBids_of_isArray (h1 sb (by simp))
    have hbids : ∀ b ∈ seatBids sb, present b = true := h2 sb (by simp)
    have ih := forEachJS_eachSeat hres rest (acc ++ (seatBids sb).map (bidResultOf res))
      (fun x hx => h1 x (by simp [hx])) (fun x hx => h2 x (by simp [hx]))
    simp [forEachJS, eachSeat, hsb, asArray, forEachJS_pushBid hres _ _ hbids, ih]

theorem resultFor_bidResultOf (body b : JSVal) : resultFor body b (bidResultOf body b) := by
  simp [resultFor, bidResultOf, field, lookupField, TIME_TO_LIVE_IN_SECONDS]

/-- C3: when the body carries a `seatbid` list in which every seat has a `bid` list of bid
entries, the interpreter returns one result per bid, seat by seat and bid by bid: the
results are as many as the bids of all seats together, and each result copies `impid`,
`price`, `w`, `h`, `crid`, `dealid`, `adm` and `adomain` of its bid and `cur` of the body,
with `ttl = 600` and `netRevenue = true`. -/
theorem interpretResponse_results (sr : JSVal) (seats : List JSVal)
    (hseat : field (field sr "body") "seatbid" = arr seats)
    (hbid : ∀ sb ∈ seats, isArray (field sb "bid") = true)
    (hentry : ∀ sb ∈ seats, ∀ b ∈ seatBids sb, present b = true) :
    ∃ rs : List JSVal, interpretResponse sr = .ok rs
      ∧ rs.length = (seats.map (fun sb => (seatBids sb).length)).sum
      ∧ List.Forall₂ (resultFor (field sr "body")) (seats.flatMap seatBids) rs := by
  have hbody : present (field sr "body") = true ∧ truthy (field sr "body") = true := by
    cases hb : field sr "body" <;> simp_all [field, present]
  have hsr : present sr = true := by
    cases sr <;> simp_all [field, present]
  have hget : getProp (field sr "body") "seatbid" = .ok (arr seats) := by
    rw [getProp_of_present _ _ hbody.1, hseat]
  refine ⟨(seats.flatMap seatBids).map (bidResultOf (field sr "body")), ?_, ?_, ?_⟩
  · simp [interpretResponse, getProp_of_present _ _ hsr, hbody.2, hget, asArray,
      forEachJS_eachSeat hbody.1 seats [] hbid hentry, List.map_flatMap]
  · rw [List.length_map]
    clear hseat hbid hentry hget
    induction seats with
    | nil => rfl
    | cons sb rest ih => simp [ih]
  · rw [List.forall₂_map_right_iff, List.forall₂_same]
    intro b _
    exact resultFor_bidResultOf _ b

theorem interpretResponse_results_witness :
    (field (field twoSeatResponse "body") "seatbid" = arr twoSeats
      ∧ (∀ sb ∈ twoSeats, isArray (field sb "bid") = true)
      ∧ (∀ sb ∈ twoSeats, ∀ b ∈ seatBids sb, present b = true)
      ∧ (twoSeats.map (fun sb => (seatBids sb).length)) = [1, 1])
    ∧ ∃ rs : List JSVal, interpretResponse twoSeatResponse = .ok rs
      ∧ rs.length = (twoSeats.map (fun sb => (seatBids sb).length)).sum
      ∧ List.Forall₂ (resultFor (field twoSeatResponse "body"))
          (twoSeats.flatMap seatBids) rs :=
  ⟨by decide, interpretResponse_results twoSeatResponse twoSeats (by decide) (by decide)
    (by decide)⟩

/-- C4: when the body of the response is absent or empty (`undefined`, `null` or the
empty string), the interpreter returns the empty sequence and does not throw. -/
theorem interpretResponse_empty_body (sr : JSVal) (hsr : present sr = true)
    (h : field sr "body" = undefined ∨ field sr "body" = null ∨ field sr "body" = str "") :
    interpretResponse sr = .ok [] := by
  have hf : truthy (field sr "body") = false := by
    rcases h with h | h | h <;> simp [h]
  simp [interpretResponse, getProp_of_present _ _ hsr, hf]

theorem interpretResponse_empty_body_witness :
    (present emptyResponse = true
      ∧ (field emptyResponse "body" = undefined ∨ field emptyResponse "body" = null
        ∨ field emptyResponse "body" = str ""))
    ∧ interpretResponse emptyResponse = .ok [] :=
  ⟨by decide, interpretResponse_empty_body emptyResponse (by decide) (by decide)⟩

theorem asArray_of_not_isArray {v : JSVal} (h : isArray v = false) :
    asArray v = .error .typeError := by
  cases v <;> simp_all [isArray, asArray]

theorem getProp_error (v : JSVal) (k : String) (e : JSError) (h : getProp v k = .error e) :
    e = .typeError := by
  cases v <;> simp_all [getProp]

theorem asArray_error (v : JSVal) (e : JSError) (h : asArray v = .error e) :
    e = .typeError := by
  cases v <;> simp_all [asArray]

theorem bind_eq_error {α β : Type} {x : JS α} {f : α → JS β} {e : JSError} :
    (x >>= f) = .error e ↔ x = .error e ∨ ∃ a, x = .ok a ∧ f a = .error e := by
  cases x with
  | error e => simp
  | ok a => simp

theorem bidResult_error (res b : JSVal) (e : JSError) (h : bidResult res b = .error e) :
    e = .typeError := by
  by_cases hb : present b = true
  · by_cases hres : present res = true
    · rw [bidResult_of_present hres hb] at h
      cases h
    · cases res <;> simp_all [bidResult, getProp_of_present _ _ hb, present]
  · cases b <;> simp_all [bidResult, present]

theorem forEachJS_error {α σ : Type} (f : σ → α → JS σ)
    (hf : ∀ acc x e, f acc x = .error e → e = .typeError) :
    ∀ (xs : List α) (acc : σ) (e : JSError), forEachJS f xs acc = .error e → e = .typeError
  | [], acc, e, h => by simp [forEachJS] at h
  | x :: xs, acc, e, h => by
    simp only [forEachJS, bind_eq_error] at h
    rcases h with h | ⟨next, _, h⟩
    · exact hf acc x e h
    · exact forEachJS_error f hf xs next e h

theorem pushBid_error (res : JSVal) (acc : List JSVal) (b : JSVal) (e : JSError)
    (h : pushBid res acc b = .error e) : e = .typeError := by
  simp only [pushBid, bind_eq_error, pure_eq_ok] at h
  rcases h with h | ⟨r, _, h⟩
  · exact bidResult_error res b e h
  · cases h

theorem eachSeat_error (res : JSVal) (acc : List JSVal) (sb : JSVal) (e : JSError)
    (h : eachSeat res acc sb = .error e) : e = .typeError := by
  simp only [eachSeat, bind_eq_error] at h
  rcases h with h | ⟨bid, _, h | ⟨entries, _, h⟩⟩
  · exact getProp_error _ _ _ h
  · exact asArray_error _ _ h
  · exact forEachJS_error _ (pushBid_error res) _ _ _ h

theorem eachSeat_of_not_isArray (res : JSVal) (acc : List JSVal) (sb : JSVal)
    (h : isArray (field sb "bid") = false) : eachSeat res acc sb = .error .typeError := by
  by_cases hp : present sb = true
  · simp [eachSeat, getProp_of_present _ _ hp, asArray_of_not_isArray h]
  · cases sb <;> simp_all [eachSeat, present]

theorem forEachJS_eachSeat_fails (res : JSVal) :
    ∀ (seats acc : List JSVal), (∃ sb ∈ seats, isArray (field sb "bid") = false) →
      forEachJS (eachSeat res) seats acc = .error .typeError
  | [], _, h => by simp at h
  | x :: rest, acc, h => by
    cases hx : eachSeat res acc x with
    | error e =>
      have he := eachSeat_error res acc x e hx
      subst he
      simp [forEachJS, hx]
    | ok next =>
      have hrest : ∃ sb ∈ rest, isArray (field sb "bid") = false := by
        obtain ⟨sb, hmem, hsb⟩ := h
        rcases List.mem_cons.mp hmem with rfl | hmem
        · rw [eachSeat_of_not_isArray res acc sb hsb] at hx
          cases hx
        · exact ⟨sb, hmem, hsb⟩
      simp [forEachJS, hx, forEachJS_eachSeat_fails res rest next hrest]

/-- C5: when the body is present but has no `seatbid` list, or one of its seats has no
`bid` list, the interpreter throws (a `TypeError`) and returns no sequence of results. -/
theorem interpretResponse_malformed (sr : JSVal)
    (hbody : truthy (field sr "body") = true)
    (h : isArray (field (field sr "body") "seatbid") = false
      ∨ ∃ seats : List JSVal, field (field sr "body") "seatbid" = arr seats
          ∧ ∃ sb ∈ seats, isArray (field sb "bid") = false) :
    interpretResponse sr = .error .typeError := by
  have hpb : present (field sr "body") = true := by
    cases hb : field sr "body" <;> simp_all [present]
  have hsr : present sr = true := by
    cases sr <;> simp_all [field, present]
  rcases h with h | ⟨seats, hseat, hbad⟩
  · simp [interpretResponse, getProp_of_present _ _ hsr, hbody, getProp_of_present _ _ hpb,
      asArray_of_not_isArray h]
  · simp [interpretResponse, getProp_of_present _ _ hsr, hbody, getProp_of_present _ _ hpb,
      hseat, asArray, forEachJS_eachSeat_fails _ seats [] hbad]

theorem interpretResponse_malformed_witness :
    (truthy (field brokenSeatResponse "body") = true
      ∧ (isArray (field (field brokenSeatResponse "body") "seatbid") = false
        ∨ ∃ seats : List JSVal, field (field brokenSeatResponse "body") "seatbid" = arr seats
            ∧ ∃ sb ∈ seats, isArray (field sb "bid") = false))
    ∧ interpretResponse brokenSeatResponse = .error .typeError :=
  have hyp : isArray (field (field brokenSeatResponse "body") "seatbid") = false
      ∨ ∃ seats : List JSVal, field (field brokenSeatResponse "body") "seatbid" = arr seats
          ∧ ∃ sb ∈ seats, isArray (field sb "bid") = false :=
    Or.inr ⟨_, rfl, obj [("seat", str "s2")], by decide, by decide⟩
  ⟨⟨by decide, hyp⟩, interpretResponse_malformed brokenSeatResponse (by decide) hyp⟩

/-! ## Size resolution -/

theorem present_of_truthy {v : JSVal} (h : truthy v = true) : present v = true := by
  cases v <;> simp_all [present]

theorem getIndex_of_present (v : JSVal) (i : Nat) (h : present v = true) :
    getIndex v i = .ok (elemAt v i) := by
  cases v <;> first
    | rfl
    | simp [present] at h

theorem present_of_field_present {v : JSVal} {k : String} (h : present (field v k) = true) :
    present v = true := by
  cases v <;> simp_all [field, present]

/-- The value of `getSizes` on a request whose `params` exist: the selected list when it
is a non-empty array, the synthetic size otherwise. -/
theorem getSizes_eq (br : JSVal) (hbr : present br = true) :
    getSizes br =
      (if isArray (if truthy (bannerSizes br) then bannerSizes br else field br "sizes")
          && decide (arrayLength
            (if truthy (bannerSizes br) then bannerSizes br else field br "sizes") > 0)
       then .ok (if truthy (bannerSizes br) then bannerSizes br else field br "sizes")
       else if present (field br "params") then .ok (arr [syntheticSize br])
       else .error .typeError) := by
  have hsel : jsOr (pure (deepAccess br ["mediaTypes", "banner", "sizes"])) (getProp br "sizes")
      = .ok (if truthy (bannerSizes br) then bannerSizes br else field br "sizes") := by
    simp only [pure_eq_ok, jsOr_ok, getProp_of_present _ _ hbr, bannerSizes]
    split <;> rfl
  unfold getSizes
  rw [hsel]
  simp only [bind_ok, getProp_of_present _ _ hbr]
  generalize (if truthy (bannerSizes br) then bannerSizes br else field br "sizes") = sel
  by_cases hc : (isArray sel && decide (arrayLength sel > 0)) = true
  · simp only [hc, if_true]
    rfl
  · simp only [hc]
    by_cases hp : present (field br "params") = true
    · simp [hp, getProp_of_present _ _ hp, syntheticSize]
    · cases hf : field br "params" <;> simp_all [present]

theorem present_of_bannerSizes {br : JSVal} (h : present (bannerSizes br) = true) :
    present br = true := by
  cases br <;> simp_all [bannerSizes, deepAccess, present]

theorem getSizes_of_selected (br : JSVal) (x : JSVal) (xs : List JSVal)
    (h : bannerSizes br = arr (x :: xs)
      ∨ (truthy (bannerSizes br) = false ∧ field br "sizes" = arr (x :: xs))) :
    getSizes br = .ok (arr (x :: xs)) := by
  have hbr : present br = true := by
    rcases h with h | ⟨_, h⟩
    · exact present_of_bannerSizes (by rw [h]; rfl)
    · exact present_of_field_present (k := "sizes") (by rw [h]; rfl)
  rw [getSizes_eq br hbr]
  rcases h with h | ⟨h1, h2⟩
  · simp [h, isArray, arrayLength]
  · simp [h1, h2, isArray, arrayLength]

/-- C7: a request that carries no size information (neither `mediaTypes.banner.sizes` nor
legacy `sizes`) resolves to exactly one size pair, whose width is `params.width` when
given (truthy) and `0` otherwise and whose height is `params.height` when given and `0`
otherwise, independently; the pair is `[0, 0]` when neither is given. -/
theorem getSizes_without_sizes (br : JSVal)
    (hparams : present (field br "params") = true)
    (hbanner : present (bannerSizes br) = false)
    (hlegacy : present (field br "sizes") = false) :
    getSizes br = .ok (arr [syntheticSize br])
      ∧ (truthy (field (field br "params") "width") = false →
          truthy (field (field br "params") "height") = false →
          getSizes br = .ok (arr [arr [num 0, num 0]])) := by
  have hbr : present br = true := present_of_field_present hparams
  have h1 : truthy (bannerSizes br) = false := by
    cases hb : bannerSizes br <;> simp_all [present]
  have h2 : isArray (field br "sizes") = false := by
    cases hb : field br "sizes" <;> simp_all [present, isArray]
  have key : getSizes br = .ok (arr [syntheticSize br]) := by
    rw [getSizes_eq br hbr]
    simp [h1, h2, hparams]
  refine ⟨key, ?_⟩
  intro hw hh
  rw [key]
  simp [syntheticSize, hw, hh]

theorem getSizes_without_sizes_witness :
    (present (field unsizedRequest "params") = true
      ∧ present (bannerSizes unsizedRequest) = false
      ∧ present (field unsizedRequest "sizes") = false)
    ∧ getSizes unsizedRequest = .ok (arr [syntheticSize unsizedRequest])
    ∧ (truthy (field (field unsizedRequest "params") "width") = false →
        truthy (field (field unsizedRequest "params") "height") = false →
        getSizes unsizedRequest = .ok (arr [arr [num 0, num 0]])) :=
  ⟨by decide, getSizes_without_sizes unsizedRequest (by decide) (by decide) (by decide)⟩

/-- C8, as stated, fails: with an empty banner size list and the legacy list `[[300,250]]`
the synthetic size `[0, 0]` is used, although a declared non-empty list exists. -/
theorem getSizes_empty_banner_ignores_legacy :
    bannerSizes emptyBannerRequest = arr []
      ∧ field emptyBannerRequest "sizes" = arr [arr [num 300, num 250]]
      ∧ getSizes emptyBannerRequest = .ok (arr [arr [num 0, num 0]])
      ∧ getSizes emptyBannerRequest ≠ .ok (field emptyBannerRequest "sizes") := by
  decide

/-- C8, amended: `getSizes` returns the declared list when `mediaTypes.banner.sizes` is a
non-empty array, and when `mediaTypes.banner.sizes` is falsy (absent) and the legacy
`sizes` field is a non-empty array. -/
theorem getSizes_declared (br : JSVal) (x : JSVal) (xs : List JSVal)
    (h : bannerSizes br = arr (x :: xs)
      ∨ (truthy (bannerSizes br) = false ∧ field br "sizes" = arr (x :: xs))) :
    getSizes br = .ok (arr (x :: xs)) :=
  getSizes_of_selected br x xs h

theorem getSizes_declared_witness :
    (bannerSizes legacyRequest = arr (arr [num 300, num 250] :: [])
      ∨ (truthy (bannerSizes legacyRequest) = false
        ∧ field legacyRequest "sizes" = arr (arr [num 300, num 250] :: [])))
    ∧ getSizes legacyRequest = .ok (arr (arr [num 300, num 250] :: [])) :=
  ⟨by decide, getSizes_declared legacyRequest _ _ (by decide)⟩

/-- C9: on a request that has a `params` object, `getSizes` returns a list with at least
one element, so that its first element, the main size, exists. -/
theorem getSizes_nonempty (br : JSVal) (hparams : present (field br "params") = true) :
    ∃ (x : JSVal) (xs : List JSVal), getSizes br = .ok (arr (x :: xs))
      ∧ getIndex (arr (x :: xs)) 0 = .ok x := by
  have hbr : present br = true := present_of_field_present hparams
  rw [getSizes_eq br hbr]
  generalize (if truthy (bannerSizes br) then bannerSizes br else field br "sizes") = sel
  by_cases hc : (isArray sel && decide (arrayLength sel > 0)) = true
  · cases sel with
    | arr ys =>
      cases ys with
      | nil => simp [isArray, arrayLength] at hc
      | cons y rest => exact ⟨y, rest, by simp [isArray, arrayLength], rfl⟩
    | _ => simp [isArray] at hc
  · exact ⟨syntheticSize br, [], by simp [hc, hparams], rfl⟩

theorem getSizes_nonempty_witness :
    present (field sizedRequest "params") = true
    ∧ ∃ (x : JSVal) (xs : List JSVal), getSizes sizedRequest = .ok (arr (x :: xs))
      ∧ getIndex (arr (x :: xs)) 0 = .ok x :=
  ⟨by decide, getSizes_nonempty sizedRequest (by decide)⟩

/-! ## The impression of a request with declared sizes -/

theorem getIndex_arr (xs : List JSVal) (i : Nat) : getIndex (arr xs) i = .ok (nthOr xs i) := rfl

theorem elemAt_of_getIndex {v x : JSVal} {i : Nat} (h : getIndex v i = .ok x) :
    elemAt v i = x := by
  simp [elemAt, h]

theorem formatOf_of_present {size : JSVal} (h : present size = true) :
    formatOf size = .ok (formatEntry size) := by
  simp [formatOf, formatEntry, getIndex_of_present _ _ h]

theorem mapJS_formatOf :
    ∀ sizes : List JSVal, (∀ s ∈ sizes, present s = true) →
      mapJS formatOf sizes = .ok (sizes.map formatEntry)
  | [], _ => rfl
  | s :: rest, h => by
    simp [mapJS, formatOf_of_present (h s (by simp)),
      mapJS_formatOf rest (fun x hx => h x (by simp [hx]))]

theorem nthOr_map (g : JSVal → JSVal) :
    ∀ (xs : List JSVal) (i : Nat), i < xs.length → nthOr (xs.map g) i = g (nthOr xs i)
  | [], i, h => by simp at h
  | _ :: _, 0, _ => rfl
  | _ :: xs, i + 1, h => by
    simpa [nthOr] using nthOr_map g xs i (by simpa using h)

theorem getSizes_of_declaredSizes {br : JSVal} {sizes : List JSVal}
    (hdecl : declaredSizes br = arr sizes) (hne : sizes ≠ []) :
    getSizes br = .ok (arr sizes) := by
  cases sizes with
  | nil => exact absurd rfl hne
  | cons x xs =>
    apply getSizes_of_selected
    unfold declaredSizes at hdecl
    by_cases hp : present (bannerSizes br) = true
    · left
      simpa [hp] using hdecl
    · right
      refine ⟨?_, by simpa [hp] using hdecl⟩
      cases hb : bannerSizes br <;> simp_all [present]

theorem jsOr_ok_ok (a b : JSVal) :
    jsOr (.ok a) (.ok b) = .ok (if truthy a then a else b) := by
  rw [jsOr_ok]
  split <;> rfl

theorem typeOf_eq_function {v : JSVal} (h : typeOf v = "function") : ∃ f, v = func f := by
  cases v <;> first
    | exact ⟨_, rfl⟩
    | simp [typeOf] at h

theorem getFloorInfo_ok (host : Host) (br mainSize : JSVal)
    (hparams : present (field br "params") = true) (hmain : present mainSize = true)
    (hfloor : FloorQueryAnswers host br) :
    ∃ fi, getFloorInfo host br mainSize = .ok fi ∧ present fi = true := by
  have hbr : present br = true := present_of_field_present hparams
  by_cases hty : typeOf (field br "getFloor") = "function"
  · obtain ⟨f, hf⟩ := typeOf_eq_function hty
    obtain ⟨fi, hcall, hfi⟩ := hfloor f hf
      [obj [("currency", getCurrency host), ("mediaType", str BANNER),
        ("size", if strictEqZero (elemAt mainSize 0) && strictEqZero mainSize then str "*"
          else mainSize)]]
    refine ⟨fi, ?_, hfi⟩
    simp only [getFloorInfo, getProp_of_present _ _ hbr, bind_ok, hty, if_true,
      getIndex_of_present _ _ hmain]
    rw [hf]
    exact hcall
  · simp only [getFloorInfo, getProp_of_present _ _ hbr, bind_ok, hty, if_false,
      getProp_of_present _ _ hparams, jsOr_ok_ok, pure_eq_ok]
    exact ⟨_, rfl, rfl⟩

theorem getPosition_ok (br : JSVal) (hparams : present (field br "params") = true) :
    ∃ pos, getPosition br = .ok pos := by
  have hbr : present br = true := present_of_field_present hparams
  simp only [getPosition, getProp_of_present _ _ hbr, bind_ok,
    getProp_of_present _ _ hparams, jsOr_ok_ok, pure_eq_ok]
  exact ⟨_, rfl⟩

theorem buildPmpObject_ok (br : JSVal) (hparams : present (field br "params") = true) :
    ∃ pmp, buildPmpObject br = .ok pmp := by
  have hbr : present br = true := present_of_field_present hparams
  simp only [buildPmpObject, getProp_of_present _ _ hbr, bind_ok,
    getProp_of_present _ _ hparams, pure_eq_ok]
  split_ifs <;> exact ⟨_, rfl⟩

theorem present_params_of_valid {br : JSVal} (h : isBidRequestValid br = .ok (boolean true)) :
    present (field br "params") = true := by
  rw [isBidRequestValid_eq] at h
  have h2 : truthy (field br "params") = true := by
    simp only [Except.ok.injEq, boolean.injEq, Bool.and_eq_true] at h
    exact h.1.2
  exact present_of_truthy h2

/-- C6: for a valid request that declares a non-empty list of sizes (banner sizes, or
legacy sizes when no banner sizes are declared), the built impression has a `format` list
as long as the size list with `format[i] = {w: sizes[i][0], h: sizes[i][1]}`, and its
banner `w` and `h` are the two entries of the first size. Such an impression is built
whenever the floor query of the request, if any, answers. -/
theorem buildOpenRtbImpObject_banner (host : Host) (br : JSVal) (sizes : List JSVal)
    (hvalid : isBidRequestValid br = .ok (boolean true))
    (hdecl : declaredSizes br = arr sizes) (hne : sizes ≠ [])
    (hentries : ∀ s ∈ sizes, present s = true) :
    (∀ imp, buildOpenRtbImpObject host br = .ok imp →
      ∃ fmt : List JSVal, field (field imp "banner") "format" = arr fmt
        ∧ fmt.length = sizes.length
        ∧ (∀ i, i < sizes.length →
            nthOr fmt i = obj [("w", elemAt (nthOr sizes i) 0), ("h", elemAt (nthOr sizes i) 1)])
        ∧ field (field imp "banner") "w" = elemAt (nthOr sizes 0) 0
        ∧ field (field imp "banner") "h" = elemAt (nthOr sizes 0) 1)
    ∧ (FloorQueryAnswers host br → ∃ imp, buildOpenRtbImpObject host br = .ok imp) := by
  have hsz := getSizes_of_declaredSizes hdecl hne
  have hparams := present_params_of_valid hvalid
  have hbr : present br = true := present_of_field_present hparams
  have hmain : present (nthOr sizes 0) = true := by
    cases sizes with
    | nil => exact absurd rfl hne
    | cons x xs => exact hentries x (by simp)
  have hfmt : buildFormatArray (arr sizes) = .ok (arr (sizes.map formatEntry)) := by
    simp [buildFormatArray, asArray, mapJS_formatOf sizes hentries]
  constructor
  · intro imp h
    simp only [buildOpenRtbImpObject, hsz, bind_ok, getIndex_arr, hfmt,
      getIndex_of_present _ _ hmain, getProp_of_present _ _ hbr,
      getProp_of_present _ _ hparams, bind_eq_ok, pure_eq_ok] at h
    obtain ⟨fi, -, pos, -, bidfloor, -, bidfloorcur, -, pmp, -, himp⟩ := h
    cases himp
    refine ⟨sizes.map formatEntry, rfl, by simp, ?_, rfl, rfl⟩
    intro i hi
    rw [nthOr_map formatEntry sizes i hi]
    rfl
  · intro hfloor
    obtain ⟨fi, hfi, hpfi⟩ := getFloorInfo_ok host br (nthOr sizes 0) hparams hmain hfloor
    obtain ⟨pos, hpos⟩ := getPosition_ok br hparams
    obtain ⟨pmp, hpmp⟩ := buildPmpObject_ok br hparams
    simp [buildOpenRtbImpObject, hsz, hfmt, getIndex_arr, hfi, hpos, hpmp,
      getIndex_of_present _ _ hmain, getProp_of_present _ _ hbr,
      getProp_of_present _ _ hparams, getProp_of_present _ _ hpfi]

theorem buildOpenRtbImpObject_banner_witness :
    (isBidRequestValid sizedRequest = .ok (boolean true)
      ∧ declaredSizes sizedRequest = arr sizedList ∧ sizedList ≠ []
      ∧ (∀ s ∈ sizedList, present s = true)
      ∧ FloorQueryAnswers plainHost sizedRequest)
    ∧ (∀ imp, buildOpenRtbImpObject plainHost sizedRequest = .ok imp →
      ∃ fmt : List JSVal, field (field imp "banner") "format" = arr fmt
        ∧ fmt.length = sizedList.length
        ∧ (∀ i, i < sizedList.length →
            nthOr fmt i
              = obj [("w", elemAt (nthOr sizedList i) 0), ("h", elemAt (nthOr sizedList i) 1)])
        ∧ field (field imp "banner") "w" = elemAt (nthOr sizedList 0) 0
        ∧ field (field imp "banner") "h" = elemAt (nthOr sizedList 0) 1)
    ∧ (FloorQueryAnswers plainHost sizedRequest →
        ∃ imp, buildOpenRtbImpObject plainHost sizedRequest = .ok imp) :=
  ⟨⟨by decide, by decide, by decide, by decide, fun _ _ _ => ⟨_, rfl, rfl⟩⟩,
    buildOpenRtbImpObject_banner plainHost sizedRequest sizedList (by decide) (by decide)
      (by decide) (by decide)⟩

/-! ## Floor resolution -/

/-- C10 fails on the code: for a request that exposes a floor query and resolves to the
synthetic size `[0, 0]`, the query receives the pair `[0, 0]` as `size`, not the wildcard
marker. -/
theorem getFloorInfo_zero_size_passes_pair :
    getSizes floorRequest = .ok (arr [arr [num 0, num 0]])
      ∧ getIndex (arr [num 0, num 0]) 0 = .ok (num 0)
      ∧ getFloorInfo echoHost floorRequest (arr [num 0, num 0])
        = .ok (arr [obj [("currency", str "USD"), ("mediaType", str "banner"),
            ("size", arr [num 0, num 0])]]) := by
  decide

/-! ## The parts of a built impression -/

/-- What a successful run of `buildOpenRtbImpObject` went through, and where the results
of the helpers end up in the impression. -/
theorem buildOpenRtbImpObject_parts {host : Host} {br imp : JSVal}
    (h : buildOpenRtbImpObject host br = .ok imp) :
    ∃ sizes mainSize fi pos pmp : JSVal,
      getSizes br = .ok sizes ∧ getIndex sizes 0 = .ok mainSize
      ∧ getFloorInfo host br mainSize = .ok fi ∧ getPosition br = .ok pos
      ∧ buildPmpObject br = .ok pmp
      ∧ field imp "bidfloor" = field fi "floor" ∧ field imp "bidfloorcur" = field fi "currency"
      ∧ field (field imp "banner") "pos" = pos ∧ field imp "pmp" = pmp := by
  simp only [buildOpenRtbImpObject, bind_eq_ok, pure_eq_ok] at h
  obtain ⟨sizes, hsizes, mainSize, hmain, fi, hfi, id, -, format, -, w, -, hh, -, pos, hpos,
    params, -, tagid, -, bidfloor, hbf, bidfloorcur, hbc, pmp, hpmp, himp⟩ := h
  cases himp
  refine ⟨sizes, mainSize, fi, pos, pmp, hsizes, hmain, hfi, hpos, hpmp, ?_, ?_, rfl, rfl⟩
  · rw [field_of_getProp hbf]; rfl
  · rw [field_of_getProp hbc]; rfl

theorem present_of_getProp_ok {v x : JSVal} {k : String} (h : getProp v k = .ok x) :
    present v = true := by
  cases v <;> first
    | rfl
    | simp at h

theorem getCurrency_eq (host : Host) : getCurrency host = resolvedCurrency host := rfl

/-- Without a floor query the floor descriptor is built from the parameters. -/
theorem getFloorInfo_without_query (host : Host) (br mainSize : JSVal)
    (hno : typeOf (field br "getFloor") ≠ "function")
    (hparams : present (field br "params") = true) :
    getFloorInfo host br mainSize
      = .ok (obj [("currency", resolvedCurrency host), ("floor", fallbackFloor br)]) := by
  have hbr : present br = true := present_of_field_present hparams
  simp only [getFloorInfo, getProp_of_present _ _ hbr, bind_ok, hno, if_false,
    getProp_of_present _ _ hparams, jsOr_ok_ok, pure_eq_ok, getCurrency_eq, fallbackFloor]
  split_ifs <;> rfl

theorem jsOr_error (e : JSError) (b : JS JSVal) : jsOr (.error e) b = .error e := rfl

theorem jsAnd_error (e : JSError) (b : JS JSVal) : jsAnd (.error e) b = .error e := rfl

theorem present_of_getFloorInfo_ok {host : Host} {br mainSize fi : JSVal}
    (h : getFloorInfo host br mainSize = .ok fi) : present br = true := by
  cases br <;> first
    | rfl
    | simp [getFloorInfo] at h

theorem present_params_of_getFloorInfo_ok {host : Host} {br mainSize fi : JSVal}
    (hno : typeOf (field br "getFloor") ≠ "function")
    (h : getFloorInfo host br mainSize = .ok fi) : present (field br "params") = true := by
  have hbr := present_of_getFloorInfo_ok h
  simp only [getFloorInfo, getProp_of_present _ _ hbr, bind_ok, hno, if_false] at h
  cases hp : field br "params" <;> first
    | rfl
    | simp [hp, jsOr_error] at h

/-- C11: for a request that exposes no floor query, the impression's `bidfloor` is
`params.bidfloor` when that is truthy, otherwise `params.floorprice` when that is truthy,
otherwise `0`, and its `bidfloorcur` is the resolved currency (the configured ad-server
currency, else `USD`), which is also the single entry of the `cur` list of the object
`request` that the payload is the JSON text of. -/
theorem impression_floor_without_query (host : Host) (br : JSVal)
    (hno : typeOf (field br "getFloor") ≠ "function") :
    (∀ imp, buildOpenRtbImpObject host br = .ok imp →
      field imp "bidfloor" = fallbackFloor br ∧ field imp "bidfloorcur" = resolvedCurrency host)
    ∧ (present (field br "params") = true → ∀ mainSize, getFloorInfo host br mainSize
        = .ok (obj [("currency", resolvedCurrency host), ("floor", fallbackFloor br)]))
    ∧ (∀ reqs ctx request, requestObject host reqs ctx = .ok request →
        field request "cur" = arr [resolvedCurrency host]) := by
  refine ⟨?_, ?_, ?_⟩
  · intro imp h
    obtain ⟨sizes, mainSize, fi, pos, pmp, -, -, hfi, -, -, hfloor, hcur, -, -⟩ :=
      buildOpenRtbImpObject_parts h
    have hparams := present_params_of_getFloorInfo_ok hno hfi
    rw [getFloorInfo_without_query host br mainSize hno hparams] at hfi
    cases hfi
    exact ⟨hfloor, hcur⟩
  · intro hparams mainSize
    exact getFloorInfo_without_query host br mainSize hno hparams
  · intro reqs ctx request h
    simp only [requestObject, bind_eq_ok, pure_eq_ok] at h
    obtain ⟨requests, -, imps, -, timeout, -, hasReferer, -, pageUrl, -, id, -, first, -,
      geo, -, again, -, test, -, hp⟩ := h
    cases hp
    rfl

theorem impression_floor_without_query_witness :
    typeOf (field floorPriceRequest "getFloor") ≠ "function"
    ∧ (∀ imp, buildOpenRtbImpObject configuredHost floorPriceRequest = .ok imp →
      field imp "bidfloor" = fallbackFloor floorPriceRequest
        ∧ field imp "bidfloorcur" = resolvedCurrency configuredHost)
    ∧ (present (field floorPriceRequest "params") = true →
        ∀ mainSize, getFloorInfo configuredHost floorPriceRequest mainSize
          = .ok (obj [("currency", resolvedCurrency configuredHost),
              ("floor", fallbackFloor floorPriceRequest)]))
    ∧ (∀ reqs ctx request,
        requestObject configuredHost reqs ctx = .ok request →
        field request "cur" = arr [resolvedCurrency configuredHost]) :=
  ⟨by decide, impression_floor_without_query configuredHost floorPriceRequest (by decide)⟩

/-! ## Position and deal targeting -/

theorem getPosition_eq (br : JSVal) (hparams : present (field br "params") = true) :
    getPosition br = .ok (effectivePosition br) := by
  have hbr : present br = true := present_of_field_present hparams
  simp only [getPosition, getProp_of_present _ _ hbr, bind_ok,
    getProp_of_present _ _ hparams, jsOr_ok_ok, pure_eq_ok, effectivePosition]
  split_ifs <;> rfl

/-- C12, as stated, fails: with `position = "0"` and `pos = "3"` the position parses to
the integer `0`, yet the impression carries `pos = 3`. -/
theorem getPosition_zero_falls_through :
    isBidRequestValid zeroPositionRequest = .ok (boolean true)
      ∧ parseInt (field (field zeroPositionRequest "params") "position") = num 0
      ∧ specPosition zeroPositionRequest = num 0
      ∧ getPosition zeroPositionRequest = .ok (num 3)
      ∧ buildOpenRtbImpObject plainHost zeroPositionRequest = .ok zeroPositionImpression
      ∧ field (field zeroPositionImpression "banner") "pos" = num 3
      ∧ field (field zeroPositionImpression "banner") "pos"
          ≠ specPosition zeroPositionRequest := by
  decide

/-- C12, amended: for a valid request the impression's `banner.pos` is the integer parsed
from `params.position` when that is a non-zero integer, otherwise the integer parsed from
`params.pos` when that is a non-zero integer, otherwise `0`. -/
theorem impression_position (host : Host) (br : JSVal)
    (hvalid : isBidRequestValid br = .ok (boolean true)) :
    getPosition br = .ok (effectivePosition br)
      ∧ ∀ imp, buildOpenRtbImpObject host br = .ok imp →
          field (field imp "banner") "pos" = effectivePosition br := by
  have hparams := present_params_of_valid hvalid
  refine ⟨getPosition_eq br hparams, ?_⟩
  intro imp h
  obtain ⟨sizes, mainSize, fi, pos, pmp, -, -, -, hpos, -, -, -, hp, -⟩ :=
    buildOpenRtbImpObject_parts h
  rw [getPosition_eq br hparams] at hpos
  cases hpos
  exact hp

theorem impression_position_witness :
    isBidRequestValid dealRequest = .ok (boolean true)
    ∧ getPosition dealRequest = .ok (effectivePosition dealRequest)
    ∧ ∀ imp, buildOpenRtbImpObject plainHost dealRequest = .ok imp →
        field (field imp "banner") "pos" = effectivePosition dealRequest :=
  ⟨by decide, impression_position plainHost dealRequest (by decide)⟩

theorem buildPmpObject_eq (br : JSVal) (hparams : present (field br "params") = true) :
    buildPmpObject br = .ok (specPmp br) := by
  have hbr : present br = true := present_of_field_present hparams
  simp only [buildPmpObject, getProp_of_present _ _ hbr, bind_ok,
    getProp_of_present _ _ hparams, pure_eq_ok, specPmp]
  split_ifs <;> rfl

/-- C13: for a valid request the impression's `pmp` is `{deals: [{id: params.dealId}]}`,
with exactly one deal, when `params.dealId` is present (truthy), and the empty object
when it is absent. -/
theorem impression_pmp (host : Host) (br : JSVal)
    (hvalid : isBidRequestValid br = .ok (boolean true)) :
    buildPmpObject br = .ok (specPmp br)
      ∧ (∀ imp, buildOpenRtbImpObject host br = .ok imp → field imp "pmp" = specPmp br)
      ∧ (truthy (field (field br "params") "dealId") = true →
          specPmp br = obj [("deals", arr [obj [("id", field (field br "params") "dealId")]])])
      ∧ (truthy (field (field br "params") "dealId") = false → specPmp br = obj []) := by
  have hparams := present_params_of_valid hvalid
  refine ⟨buildPmpObject_eq br hparams, ?_, ?_, ?_⟩
  · intro imp h
    obtain ⟨sizes, mainSize, fi, pos, pmp, -, -, -, -, hpmp, -, -, -, hp⟩ :=
      buildOpenRtbImpObject_parts h
    rw [buildPmpObject_eq br hparams] at hpmp
    cases hpmp
    exact hp
  · intro hd
    simp [specPmp, hd]
  · intro hd
    simp [specPmp, hd]

theorem impression_pmp_witness :
    isBidRequestValid dealRequest = .ok (boolean true)
    ∧ buildPmpObject dealRequest = .ok (specPmp dealRequest)
    ∧ (∀ imp, buildOpenRtbImpObject plainHost dealRequest = .ok imp →
        field imp "pmp" = specPmp dealRequest)
    ∧ (truthy (field (field dealRequest "params") "dealId") = true →
        specPmp dealRequest
          = obj [("deals", arr [obj [("id", field (field dealRequest "params") "dealId")]])])
    ∧ (truthy (field (field dealRequest "params") "dealId") = false →
        specPmp dealRequest = obj []) :=
  ⟨by decide, impression_pmp plainHost dealRequest (by decide)⟩

/-! ## The payload: geo, test flag and the first request -/

/-- What a successful run of `requestObject` went through, and where the results end up
in the object. -/
theorem requestObject_parts {host : Host} {reqs ctx payload : JSVal}
    (h : requestObject host reqs ctx = .ok payload) :
    ∃ (requests imps : List JSVal) (first geo test : JSVal),
      asArray reqs = .ok requests ∧ mapJS (fun br => buildOpenRtbImpObject host br) requests = .ok imps
      ∧ getIndex reqs 0 = .ok first ∧ getGeo first = .ok geo ∧ getTest host first = .ok test
      ∧ field payload "imp" = arr imps ∧ field (field payload "device") "geo" = geo
      ∧ field payload "test" = test := by
  simp only [requestObject, bind_eq_ok, pure_eq_ok] at h
  obtain ⟨requests, hreq, imps, himps, timeout, -, hasReferer, -, pageUrl, -, id, -, first,
    hfirst, geo, hgeo, again, hagain, test, htest, hp⟩ := h
  cases hp
  rw [hfirst] at hagain
  cases hagain
  exact ⟨requests, imps, first, geo, test, hreq, himps, hfirst, hgeo, htest, rfl, rfl, rfl⟩

theorem truthy_params_of_valid {br : JSVal} (h : isBidRequestValid br = .ok (boolean true)) :
    truthy (field br "params") = true := by
  rw [isBidRequestValid_eq] at h
  simp only [Except.ok.injEq, boolean.injEq, Bool.and_eq_true] at h
  exact h.1.2

theorem getTest_eq (host : Host) (br : JSVal)
    (hvalid : isBidRequestValid br = .ok (boolean true)) :
    getTest host br = .ok (specTestFlag host br) := by
  have hparams := present_params_of_valid hvalid
  have htp := truthy_params_of_valid hvalid
  have hbr : present br = true := present_of_field_present hparams
  simp only [getTest, getProp_of_present _ _ hbr, bind_ok, jsAnd_ok, htp, if_true,
    getProp_of_present _ _ hparams, jsOr_ok_ok, pure_eq_ok, specTestFlag]
  by_cases ht : truthy (field (field br "params") "test") = true
  · simp [ht]
  · by_cases hd : truthy (host.getConfig "debug") = true
    · simp [ht, hd]
    · simp [ht, hd]

/-- C16: for a non-empty sequence whose first request is valid, the `test` flag of the
object `request`, which the payload is the JSON text of, is `1` exactly when the first
request's `params.test` is truthy or the global debug configuration is enabled, and `0`
otherwise; it takes no other value. -/
theorem payload_test_flag (host : Host) (first : JSVal) (rest : List JSVal) (ctx : JSVal)
    (hvalid : isBidRequestValid first = .ok (boolean true)) :
    getTest host first = .ok (specTestFlag host first)
      ∧ (specTestFlag host first = num 1 ∨ specTestFlag host first = num 0)
      ∧ ∀ request, requestObject host (arr (first :: rest)) ctx = .ok request →
          field request "test" = specTestFlag host first := by
  refine ⟨getTest_eq host first hvalid, ?_, ?_⟩
  · unfold specTestFlag
    split_ifs
    · exact Or.inl rfl
    · exact Or.inr rfl
  · intro payload h
    obtain ⟨requests, imps, fst, geo, test, -, -, hfirst, -, htest, -, -, ht⟩ :=
      requestObject_parts h
    rw [getIndex_arr] at hfirst
    cases hfirst
    rw [show nthOr (first :: rest) 0 = first from rfl, getTest_eq host first hvalid] at htest
    cases htest
    exact ht

theorem payload_test_flag_witness :
    isBidRequestValid sizedRequest = .ok (boolean true)
    ∧ getTest configuredHost sizedRequest = .ok (specTestFlag configuredHost sizedRequest)
    ∧ (specTestFlag configuredHost sizedRequest = num 1
        ∨ specTestFlag configuredHost sizedRequest = num 0)
    ∧ ∀ request,
        requestObject configuredHost (arr (sizedRequest :: [dealRequest]))
          sampleContext = .ok request →
        field request "test" = specTestFlag configuredHost sizedRequest :=
  ⟨by decide, payload_test_flag configuredHost sizedRequest [dealRequest] sampleContext
    (by decide)⟩

/-- C19: `device.geo` and `test` of the object `request`, which the payload is the JSON
text of, depend on the first request only: two non-empty sequences with the same first
request, under the same host configuration and auction context, give objects with equal
`device.geo` and equal `test`. -/
theorem payload_geo_test_first_only (host : Host) (ctx first : JSVal)
    (rest1 rest2 : List JSVal) (p1 p2 : JSVal)
    (h1 : requestObject host (arr (first :: rest1)) ctx = .ok p1)
    (h2 : requestObject host (arr (first :: rest2)) ctx = .ok p2) :
    field (field p1 "device") "geo" = field (field p2 "device") "geo"
      ∧ field p1 "test" = field p2 "test" := by
  obtain ⟨-, -, f1, geo1, test1, -, -, hf1, hg1, ht1, -, hgeo1, htest1⟩ :=
    requestObject_parts h1
  obtain ⟨-, -, f2, geo2, test2, -, -, hf2, hg2, ht2, -, hgeo2, htest2⟩ :=
    requestObject_parts h2
  rw [getIndex_arr] at hf1 hf2
  cases hf1
  cases hf2
  have hfirst1 : nthOr (first :: rest1) 0 = first := rfl
  have hfirst2 : nthOr (first :: rest2) 0 = first := rfl
  rw [hfirst1] at hg1 ht1
  rw [hfirst2] at hg2 ht2
  rw [hg1] at hg2
  rw [ht1] at ht2
  cases hg2
  cases ht2
  exact ⟨hgeo1.trans hgeo2.symm, htest1.trans htest2.symm⟩

theorem payload_geo_test_first_only_witness :
    (requestObject plainHost (arr (sizedRequest :: [])) sampleContext
        = .ok singlePayload
      ∧ requestObject plainHost (arr (sizedRequest :: [dealRequest]))
          sampleContext = .ok pairPayload
      ∧ truthy (field (field dealRequest "params") "zip") = true
      ∧ truthy (field (field dealRequest "params") "test") = true
      ∧ field (field pairPayload "device") "geo" = obj []
      ∧ field pairPayload "test" = num 0)
    ∧ field (field singlePayload "device") "geo" = field (field pairPayload "device") "geo"
    ∧ field singlePayload "test" = field pairPayload "test" :=
  ⟨by decide, payload_geo_test_first_only plainHost sampleContext sizedRequest [] [dealRequest]
    singlePayload pairPayload (by decide) (by decide)⟩

/-- C20: on the empty sequence of bid requests `buildRequests` throws, whatever the
auction context: no descriptor with an empty `imp` list is returned. -/
theorem buildRequests_empty (host : Host) (ctx : JSVal) :
    buildRequests host (arr []) ctx = .error .typeError := by
  by_cases hctx : present ctx = true
  · have hgeo : getGeo undefined = .error .typeError := rfl
    simp only [buildRequests, buildOpenRtbBidRequestPayload, requestObject, asArray, bind_ok,
      mapJS, pure_eq_ok, getProp_of_present _ _ hctx, jsOr_ok_ok, jsAnd_ok, getIndex_arr, nthOr,
      hgeo]
    by_cases hr : truthy (field ctx "refererInfo") = true
    · simp [hr, getProp_of_present _ _ (present_of_truthy hr)]
      split_ifs <;> rfl
    · simp [hr]
  · cases ctx <;> first
      | rfl
      | simp [present] at hctx

/-! ## Floor resolution with a floor query -/

theorem wildcard_condition_false (mainSize : JSVal) :
    (strictEqZero (elemAt mainSize 0) && strictEqZero mainSize) = false := by
  cases mainSize <;> simp [strictEqZero, elemAt, getIndex]

/-- C17: for a request that exposes a floor query, the wildcard condition is false for
every main size, so the query is invoked with `currency` the resolved currency,
`mediaType` `banner` and `size` the main size itself, never the marker `*`. (A main size
that is `undefined` or `null` makes `mainSize[0]` throw before any call.) -/
theorem getFloorInfo_passes_main_size (host : Host) (br : JSVal) (f : Nat)
    (hf : field br "getFloor" = func f) (mainSize : JSVal) :
    (strictEqZero (elemAt mainSize 0) && strictEqZero mainSize) = false
      ∧ (present mainSize = true →
          getFloorInfo host br mainSize = host.call f br
            [obj [("currency", resolvedCurrency host), ("mediaType", str "banner"),
              ("size", mainSize)]])
      ∧ (present mainSize = false → getFloorInfo host br mainSize = .error .typeError) := by
  have hbr : present br = true := present_of_field_present (k := "getFloor") (by rw [hf]; rfl)
  have hty : typeOf (field br "getFloor") = "function" := by rw [hf]; rfl
  refine ⟨wildcard_condition_false mainSize, ?_, ?_⟩
  · intro hmain
    simp only [getFloorInfo, getProp_of_present _ _ hbr, bind_ok, hty, if_true,
      getIndex_of_present _ _ hmain, wildcard_condition_false]
    rw [hf]
    rfl
  · intro hmain
    simp only [getFloorInfo, getProp_of_present _ _ hbr, bind_ok, hty, if_true]
    cases mainSize <;> first
      | rfl
      | simp [present] at hmain

theorem getFloorInfo_passes_main_size_witness :
    field floorRequest "getFloor" = func 0
    ∧ (strictEqZero (elemAt (arr [num 0, num 250]) 0) && strictEqZero (arr [num 0, num 250]))
        = false
    ∧ (present (arr [num 0, num 250]) = true →
        getFloorInfo echoHost floorRequest (arr [num 0, num 250]) = echoHost.call 0 floorRequest
          [obj [("currency", resolvedCurrency echoHost), ("mediaType", str "banner"),
            ("size", arr [num 0, num 250])]])
    ∧ (present (arr [num 0, num 250]) = false →
        getFloorInfo echoHost floorRequest (arr [num 0, num 250]) = .error .typeError) :=
  ⟨by decide, getFloorInfo_passes_main_size echoHost floorRequest 0 (by decide)
    (arr [num 0, num 250])⟩

/-! ## Device classification -/

theorem test_of_matchesAt (r : Re) (s : List Char) (h : Re.matchesAt r s = true) :
    Re.test r s = true := by
  cases s with
  | nil => simpa [Re.test] using h
  | cons x xs => simp [Re.test, h]

theorem test_append_left (r : Re) (s : List Char) (h : Re.test r s = true) :
    ∀ pre : List Char, Re.test r (pre ++ s) = true
  | [] => h
  | p :: ps => by
    have ih := test_append_left r s h ps
    simp [Re.test, ih]

/-- A match at the head of the lowered rest of the user agent is found by `test`. -/
theorem test_lowered_of_contains (r : Re) (w : List Char)
    (hstart : ∀ s, startsAnyCase w s = true → Re.matchesAt r (s.flatMap lowerChar) = true) :
    ∀ ua : List Char, containsAnyCase w ua = true → Re.test r (ua.flatMap lowerChar) = true
  | [], h => test_of_matchesAt r _ (hstart [] (by simpa [containsAnyCase] using h))
  | c :: cs, h => by
    simp only [containsAnyCase, Bool.or_eq_true] at h
    rcases h with h | h
    · exact test_of_matchesAt r _ (hstart (c :: cs) h)
    · have ih := test_lowered_of_contains r w hstart cs h
      rw [List.flatMap_cons]
      exact test_append_left r _ ih _

theorem lowered_of_starts_ipad (s : List Char) (h : startsAnyCase "iPad".data s = true) :
    ∃ rest, s.flatMap lowerChar = 'i' :: 'p' :: 'a' :: 'd' :: rest := by
  rcases s with _ | ⟨c1, _ | ⟨c2, _ | ⟨c3, _ | ⟨c4, tail⟩⟩⟩⟩ <;>
    simp [startsAnyCase, sameLetter] at h
  obtain ⟨h1, h2, h3, h4⟩ := h
  rcases h1 with rfl | rfl <;> rcases h2 with rfl | rfl <;> rcases h3 with rfl | rfl <;>
    rcases h4 with rfl | rfl <;> exact ⟨_, rfl⟩

theorem tablet_matches_ipad (rest : List Char) :
    Re.matchesAt tabletPattern ('i' :: 'p' :: 'a' :: 'd' :: rest) = true := by
  rfl

/-- C14: a user agent that contains `iPad`, in any letter case, is classified as a tablet
(`5`), whatever else it contains. -/
theorem getDevice_ipad (host : Host)
    (h : containsAnyCase "iPad".data host.userAgent.data = true) : getDevice host = num 5 := by
  have ht : Re.test tabletPattern (toLowerCase host.userAgent).data = true := by
    apply test_lowered_of_contains tabletPattern "iPad".data _ _ h
    intro s hs
    obtain ⟨rest, hrest⟩ := lowered_of_starts_ipad s hs
    rw [hrest]
    exact tablet_matches_ipad rest
  simp [getDevice, ht]

theorem getDevice_ipad_witness :
    containsAnyCase "iPad".data tabletHost.userAgent.data = true
    ∧ getDevice tabletHost = num 5 :=
  ⟨by decide, getDevice_ipad tabletHost (by decide)⟩

theorem lowered_of_starts_iphone (s : List Char) (h : startsAnyCase "iPhone".data s = true) :
    ∃ rest, s.flatMap lowerChar = 'i' :: 'p' :: 'h' :: 'o' :: 'n' :: 'e' :: rest := by
  rcases s with _ | ⟨c1, _ | ⟨c2, _ | ⟨c3, _ | ⟨c4, _ | ⟨c5, _ | ⟨c6, tail⟩⟩⟩⟩⟩⟩ <;>
    simp [startsAnyCase, sameLetter] at h
  obtain ⟨h1, h2, h3, h4, h5, h6⟩ := h
  rcases h1 with rfl | rfl <;> rcases h2 with rfl | rfl <;> rcases h3 with rfl | rfl <;>
    rcases h4 with rfl | rfl <;> rcases h5 with rfl | rfl <;> rcases h6 with rfl | rfl <;>
    exact ⟨_, rfl⟩

theorem phone_matches_iphone (rest : List Char) :
    Re.matchesAt phonePattern ('i' :: 'p' :: 'h' :: 'o' :: 'n' :: 'e' :: rest) = true := by
  rfl

/-- C15, as stated, fails: this user agent contains `iPhone`, yet the tablet check, made
first, matches `ipad` and the device is classified as a tablet (`5`), not as a phone. -/
theorem getDevice_iphone_on_tablet :
    tabletHost.userAgent = "Mozilla/5.0 (iPad; CPU " ++ "iPhone" ++ " OS 12_0 like Mac OS X)"
      ∧ getDevice tabletHost = num 5
      ∧ getDevice tabletHost ≠ num 4 := by
  decide

/-- C15, amended: a user agent that contains `iPhone` and does not match the tablet
pattern is classified as a phone (`4`). -/
theorem getDevice_iphone (host : Host)
    (h : containsAnyCase "iPhone".data host.userAgent.data = true)
    (hnot : Re.test tabletPattern (toLowerCase host.userAgent).data = false) :
    getDevice host = num 4 := by
  have hp : Re.test phonePattern (toLowerCase host.userAgent).data = true := by
    apply test_lowered_of_contains phonePattern "iPhone".data _ _ h
    intro s hs
    obtain ⟨rest, hrest⟩ := lowered_of_starts_iphone s hs
    rw [hrest]
    exact phone_matches_iphone rest
  simp [getDevice, hnot, hp]

theorem getDevice_iphone_witness :
    (containsAnyCase "iPhone".data phoneHost.userAgent.data = true
      ∧ Re.test tabletPattern (toLowerCase phoneHost.userAgent).data = false)
    ∧ getDevice phoneHost = num 4 :=
  ⟨by decide, getDevice_iphone phoneHost (by decide) (by decide)⟩

/-! ## Building the payload raises no error -/

theorem present_of_isPair {s : JSVal} (h : isPair s = true) : present s = true := by
  cases s <;> first
    | rfl
    | simp [isPair] at h

theorem entries_present_of_pairsIfAny {xs : List JSVal} (h : pairsIfAny (arr xs) = true) :
    ∀ s ∈ xs, present s = true := by
  intro s hs
  simp only [pairsIfAny, List.all_eq_true] at h
  exact present_of_isPair (h s hs)

/-- The resolved size list of a request with parameters and well-formed declared sizes is
a non-empty list of values. -/
theorem getSizes_wellFormed (br : JSVal) (hparams : present (field br "params") = true)
    (hbanner : pairsIfAny (bannerSizes br) = true)
    (hlegacy : pairsIfAny (field br "sizes") = true) :
    ∃ sizes : List JSVal, getSizes br = .ok (arr sizes) ∧ sizes ≠ []
      ∧ ∀ s ∈ sizes, present s = true := by
  have hbr : present br = true := present_of_field_present hparams
  have hsel : pairsIfAny (if truthy (bannerSizes br) then bannerSizes br else field br "sizes")
      = true := by
    split_ifs
    · exact hbanner
    · exact hlegacy
  rw [getSizes_eq br hbr]
  generalize (if truthy (bannerSizes br) then bannerSizes br else field br "sizes") = sel
    at hsel ⊢
  by_cases hc : (isArray sel && decide (arrayLength sel > 0)) = true
  · cases sel with
    | arr ys =>
      cases ys with
      | nil => simp [isArray, arrayLength] at hc
      | cons y rest =>
        exact ⟨y :: rest, by simp [isArray, arrayLength], by simp,
          entries_present_of_pairsIfAny hsel⟩
    | _ => simp [isArray] at hc
  · refine ⟨[syntheticSize br], by simp [hc, hparams], by simp, ?_⟩
    intro s hs
    simp only [List.mem_singleton] at hs
    subst hs
    rfl

theorem buildOpenRtbImpObject_ok (host : Host) (br : JSVal)
    (hvalid : isBidRequestValid br = .ok (boolean true))
    (hbanner : pairsIfAny (bannerSizes br) = true)
    (hlegacy : pairsIfAny (field br "sizes") = true)
    (hfloor : FloorQueryAnswers host br) :
    ∃ imp, buildOpenRtbImpObject host br = .ok imp := by
  have hparams := present_params_of_valid hvalid
  have hbr : present br = true := present_of_field_present hparams
  obtain ⟨sizes, hsz, hne, hentries⟩ := getSizes_wellFormed br hparams hbanner hlegacy
  have hmain : present (nthOr sizes 0) = true := by
    cases sizes with
    | nil => exact absurd rfl hne
    | cons x xs => exact hentries x (by simp)
  have hfmt : buildFormatArray (arr sizes) = .ok (arr (sizes.map formatEntry)) := by
    simp [buildFormatArray, asArray, mapJS_formatOf sizes hentries]
  obtain ⟨fi, hfi, hpfi⟩ := getFloorInfo_ok host br (nthOr sizes 0) hparams hmain hfloor
  obtain ⟨pos, hpos⟩ := getPosition_ok br hparams
  obtain ⟨pmp, hpmp⟩ := buildPmpObject_ok br hparams
  simp [buildOpenRtbImpObject, hsz, hfmt, getIndex_arr, hfi, hpos, hpmp,
    getIndex_of_present _ _ hmain, getProp_of_present _ _ hbr,
    getProp_of_present _ _ hparams, getProp_of_present _ _ hpfi]

theorem mapJS_ok {α β : Type} (f : α → JS β) :
    ∀ xs : List α, (∀ x ∈ xs, ∃ y, f x = .ok y) → ∃ ys, mapJS f xs = .ok ys
  | [], _ => ⟨[], rfl⟩
  | x :: xs, h => by
    obtain ⟨y, hy⟩ := h x (by simp)
    obtain ⟨ys, hys⟩ := mapJS_ok f xs (fun z hz => h z (by simp [hz]))
    exact ⟨y :: ys, by simp [mapJS, hy, hys]⟩

theorem getGeo_ok (br : JSVal) (hparams : present (field br "params") = true) :
    ∃ geo, getGeo br = .ok geo := by
  have hbr : present br = true := present_of_field_present hparams
  simp only [getGeo, getProp_of_present _ _ hbr, jsAnd_ok, bind_ok,
    getProp_of_present _ _ hparams, pure_eq_ok]
  by_cases hp : truthy (field br "params") = true
  · by_cases hz : truthy (field (field br "params") "zip") = true
    · simp [hp, hz]
    · simp [hp, hz]
  · simp [hp]

theorem requestObject_ok (host : Host) (first : JSVal) (rest : List JSVal) (ctx : JSVal)
    (hctx : present ctx = true)
    (hvalid : ∀ br ∈ first :: rest, isBidRequestValid br = .ok (boolean true))
    (hsizes : ∀ br ∈ first :: rest,
      pairsIfAny (bannerSizes br) = true ∧ pairsIfAny (field br "sizes") = true)
    (hfloor : ∀ br ∈ first :: rest, FloorQueryAnswers host br) :
    ∃ fs, requestObject host (arr (first :: rest)) ctx = .ok (obj fs) := by
  obtain ⟨imps, himps⟩ := mapJS_ok (fun br => buildOpenRtbImpObject host br) (first :: rest)
    (fun br hbr => buildOpenRtbImpObject_ok host br (hvalid br hbr) (hsizes br hbr).1
      (hsizes br hbr).2 (hfloor br hbr))
  have hfirst := hvalid first (by simp)
  obtain ⟨geo, hgeo⟩ := getGeo_ok first (present_params_of_valid hfirst)
  have htest := getTest_eq host first hfirst
  have hnth : nthOr (first :: rest) 0 = first := rfl
  simp only [requestObject, asArray, bind_ok, himps,
    getProp_of_present _ _ hctx, jsOr_ok_ok, jsAnd_ok, getIndex_arr, hnth, hgeo, htest,
    pure_eq_ok]
  by_cases hr : truthy (field ctx "refererInfo") = true
  · simp [hr, getProp_of_present _ _ (present_of_truthy hr)]
    split_ifs <;> simp
  · simp [hr]

/-! ## Serialising plain data -/

theorem plainData_of_mem : ∀ (xs : List JSVal), plainList xs = true →
    ∀ x ∈ xs, plainData x = true
  | [], _, x, hx => by simp at hx
  | y :: ys, h, x, hx => by
    simp only [plainList, Bool.and_eq_true] at h
    rcases List.mem_cons.mp hx with rfl | hx
    · exact h.1
    · exact plainData_of_mem ys h.2 x hx

theorem depth_le_of_mem : ∀ (xs : List JSVal), ∀ x ∈ xs, depth x ≤ depthList xs
  | [], x, hx => by simp at hx
  | y :: ys, x, hx => by
    simp only [depthList]
    rcases List.mem_cons.mp hx with rfl | hx
    · exact le_max_left _ _
    · exact le_trans (depth_le_of_mem ys x hx) (le_max_right _ _)

theorem plainData_lookupField (k : String) : ∀ (fs : List (String × JSVal)),
    plainFields fs = true → plainData (lookupField k fs) = true
  | [], _ => rfl
  | (k2, v) :: fs, h => by
    simp only [plainFields, Bool.and_eq_true] at h
    simp only [lookupField]
    split
    · exact h.1
    · exact plainData_lookupField k fs h.2

theorem depth_lookupField (k : String) : ∀ (fs : List (String × JSVal)),
    depth (lookupField k fs) ≤ depthFields fs
  | [] => by simp [lookupField, depth, depthFields]
  | (k2, v) :: fs => by
    simp only [lookupField, depthFields]
    split
    · exact le_max_left _ _
    · exact le_trans (depth_lookupField k fs) (le_max_right _ _)

theorem typeOf_of_plainData {v : JSVal} (h : plainData v = true) :
    typeOf v ≠ "function" := by
  cases v <;> simp [typeOf, plainData] at h ⊢

theorem mem_of_mem_indexed : ∀ (xs : List JSVal) (i : Nat) (p : Nat × JSVal),
    p ∈ indexed i xs → p.2 ∈ xs
  | [], _, p, hp => by simp [indexed] at hp
  | x :: xs, i, p, hp => by
    simp only [indexed, List.mem_cons] at hp
    rcases hp with rfl | hp
    · simp
    · exact List.mem_cons_of_mem _ (mem_of_mem_indexed xs (i + 1) p hp)

theorem serializeElements_ok (ser : String → JSVal → JS (Option String)) (xs : List JSVal)
    (h : ∀ x ∈ xs, ∀ k, ∃ r, ser k x = .ok r) :
    ∃ parts, serializeElements ser xs = .ok parts := by
  unfold serializeElements
  apply mapJS_ok
  intro p hp
  obtain ⟨r, hr⟩ := h p.2 (mem_of_mem_indexed xs 0 p hp) (toString p.1)
  simp only [hr, bind_ok, pure_eq_ok]
  exact ⟨_, rfl⟩

theorem serializeMembers_ok (ser : String → JSVal → JS (Option String))
    (fs : List (String × JSVal)) (h : ∀ k, ∃ r, ser k (lookupField k fs) = .ok r) :
    ∃ parts, serializeMembers ser fs = .ok parts := by
  unfold serializeMembers
  obtain ⟨parts, hparts⟩ := mapJS_ok (fun k => do
    let r ← ser k (lookupField k fs)
    pure (r.map (fun text => quoteJSONString k ++ ":" ++ text))) (ownKeys fs) (by
      intro k _
      obtain ⟨r, hr⟩ := h k
      simp only [hr, bind_ok, pure_eq_ok]
      exact ⟨_, rfl⟩)
  exact ⟨parts.filterMap id, bind_eq_ok.mpr ⟨parts, hparts, rfl⟩⟩

/-- Plain data within the depth the engine can descend is serialised without an
exception. -/
theorem serializeJSONProperty_ok (host : Host) :
    ∀ (fuel : Nat) (key : String) (v : JSVal), plainData v = true → depth v < fuel →
      ∃ r, serializeJSONProperty host fuel key v = .ok r
  | 0, _, _, _, hd => by simp at hd
  | fuel + 1, key, v, hp, hd => by
    cases v with
    | undefined => simp [serializeJSONProperty, typeOf]
    | null => simp [serializeJSONProperty, typeOf]
    | boolean b => simp [serializeJSONProperty, typeOf]
    | num n => simp [serializeJSONProperty, typeOf]
    | nan => simp [serializeJSONProperty, typeOf]
    | str s => simp [serializeJSONProperty, typeOf]
    | func f => simp [plainData] at hp
    | arr xs =>
      simp only [plainData] at hp
      simp only [depth, Nat.add_lt_add_iff_right] at hd
      obtain ⟨parts, hparts⟩ := serializeElements_ok (serializeJSONProperty host fuel) xs
        (fun x hx k => serializeJSONProperty_ok host fuel k x (plainData_of_mem xs hp x hx)
          (lt_of_le_of_lt (depth_le_of_mem xs x hx) hd))
      simp [serializeJSONProperty, typeOf, hparts]
    | obj fs =>
      simp only [plainData] at hp
      simp only [depth, Nat.add_lt_add_iff_right] at hd
      have hto := typeOf_of_plainData (plainData_lookupField "toJSON" fs hp)
      obtain ⟨parts, hparts⟩ := serializeMembers_ok (serializeJSONProperty host fuel) fs
        (fun k => serializeJSONProperty_ok host fuel k _ (plainData_lookupField k fs hp)
          (lt_of_le_of_lt (depth_lookupField k fs) hd))
      simp [serializeJSONProperty, hto, hparts]

/-- A plain object within the depth the engine can descend has a JSON text. -/
theorem JSONstringify_ok (host : Host) (fs : List (String × JSVal))
    (hp : plainData (obj fs) = true) (hd : depth (obj fs) < host.maxDepth) :
    ∃ text, JSONstringify host (obj fs) = .ok (str text) := by
  cases hfuel : host.maxDepth with
  | zero => simp [hfuel] at hd
  | succ fuel =>
    rw [hfuel] at hd
    simp only [plainData] at hp
    simp only [depth, Nat.add_lt_add_iff_right] at hd
    have hto := typeOf_of_plainData (plainData_lookupField "toJSON" fs hp)
    obtain ⟨parts, hparts⟩ := serializeMembers_ok (serializeJSONProperty host fuel) fs
      (fun k => serializeJSONProperty_ok host fuel k _ (plainData_lookupField k fs hp)
        (lt_of_le_of_lt (depth_lookupField k fs) hd))
    simp [JSONstringify, hfuel, serializeJSONProperty, hto, hparts]

/-! ## Building the payload -/

/-- C18, as stated, fails: this request passes the validator, declares no sizes and has no
floor query, yet its zip code carries a `toJSON` method that throws, so `JSON.stringify`
throws and `buildRequests` returns no descriptor. -/
theorem buildRequests_toJSON_throws :
    present sampleContext = true
      ∧ (∀ br ∈ toJSONRequest :: [], isBidRequestValid br = .ok (boolean true))
      ∧ (∀ br ∈ toJSONRequest :: [],
          pairsIfAny (bannerSizes br) = true ∧ pairsIfAny (field br "sizes") = true)
      ∧ (∀ br ∈ toJSONRequest :: [], FloorQueryAnswers throwingHost br)
      ∧ buildRequests throwingHost (arr (toJSONRequest :: [])) sampleContext
          = .error (.thrown (str "boom")) := by
  refine ⟨by decide, by decide, by decide, ?_, by decide⟩
  intro br hbr f hf
  simp only [List.mem_singleton] at hbr
  subst hbr
  have hnone : field toJSONRequest "getFloor" = undefined := by decide
  rw [hnone] at hf
  cases hf

/-- C18, amended: for a non-empty sequence of requests that each pass the validator,
declare sizes (if any) that are lists of width/height pairs and have a floor query (if
any) that answers with a floor descriptor, assembling the object `request` raises no
error, whatever the auction context; and serialising it, so building the payload and the
descriptor, raises no error when that object holds only plain data nested within the depth
the engine can serialise. -/
theorem buildRequests_completes (host : Host) (first : JSVal) (rest : List JSVal) (ctx : JSVal)
    (hctx : present ctx = true)
    (hvalid : ∀ br ∈ first :: rest, isBidRequestValid br = .ok (boolean true))
    (hsizes : ∀ br ∈ first :: rest,
      pairsIfAny (bannerSizes br) = true ∧ pairsIfAny (field br "sizes") = true)
    (hfloor : ∀ br ∈ first :: rest, FloorQueryAnswers host br) :
    ∃ request, requestObject host (arr (first :: rest)) ctx = .ok request
      ∧ (plainData request = true → depth request < host.maxDepth →
          ∃ d text, buildRequests host (arr (first :: rest)) ctx = .ok d
            ∧ field d "data" = str text) := by
  obtain ⟨fs, hreq⟩ := requestObject_ok host first rest ctx hctx hvalid hsizes hfloor
  refine ⟨obj fs, hreq, ?_⟩
  intro hp hd
  obtain ⟨text, htext⟩ := JSONstringify_ok host fs hp hd
  refine ⟨obj [("method", str "POST"), ("url", str BIDDER_ENDPOINT), ("data", str text),
    ("options", obj [("contentType", str "application/json")])], text, ?_, rfl⟩
  simp only [buildRequests, buildOpenRtbBidRequestPayload, hreq, htext, bind_ok, pure_eq_ok]

set_option maxRecDepth 4000 in
theorem buildRequests_completes_witness :
    (present sampleContext = true
      ∧ (∀ br ∈ sizedRequest :: [floorRequest, dealRequest],
          isBidRequestValid br = .ok (boolean true))
      ∧ (∀ br ∈ sizedRequest :: [floorRequest, dealRequest],
          pairsIfAny (bannerSizes br) = true ∧ pairsIfAny (field br "sizes") = true)
      ∧ (∀ br ∈ sizedRequest :: [floorRequest, dealRequest], FloorQueryAnswers plainHost br)
      ∧ buildRequests plainHost (arr (sizedRequest :: [floorRequest, dealRequest]))
          sampleContext = .ok completeDescriptor)
    ∧ ∃ request,
        requestObject plainHost (arr (sizedRequest :: [floorRequest, dealRequest]))
          sampleContext = .ok request
        ∧ (plainData request = true → depth request < plainHost.maxDepth →
            ∃ d text, buildRequests plainHost (arr (sizedRequest :: [floorRequest, dealRequest]))
                sampleContext = .ok d
              ∧ field d "data" = str text) :=
  ⟨⟨by decide, by decide, by decide, fun _ _ _ _ _ => ⟨_, rfl, rfl⟩, by decide⟩,
    buildRequests_completes plainHost sizedRequest [floorRequest, dealRequest] sampleContext
      (by decide) (by decide) (by decide) (fun _ _ _ _ _ => ⟨_, rfl, rfl⟩)⟩

end Kobler
